import Mathlib

/-!
Verification development for the arrow-game puzzle core
(`src/unnamed/part_000`, an arrow exit puzzle): grid model, exit
predicate `canExit`, canonical serialization `serializeGrid`, bounded
BFS solver `findSolutionLimited`, and the random level generator
`generateRandomLevelAsync`.  Machine integers of the source are `Nat`
(all quantities are small non-negative counters); walk coordinates that
can step below zero are `Int`, exactly as the source's signed indices.
-/

namespace ArrowGame

/-- Travel direction of a piece, `dirs = ['U', 'D', 'L', 'R']` in the source. -/
inductive Dir where
  | U
  | D
  | L
  | R
deriving DecidableEq, Repr

/-- An occupied cell's payload, the object `{ id, dir, len, head }` of the source. -/
structure Cell where
  id : Nat
  dir : Dir
  len : Nat
  head : Bool
deriving DecidableEq, Repr

/-- A grid is a rectangular matrix of cells; `null` of the source is `none`. -/
abbrev Grid := List (List (Option Cell))

/-- DIR_VECTORS of the source: U (-1,0), D (1,0), L (0,-1), R (0,1). -/
def dirVec : Dir → Int × Int
  | Dir.U => (-1, 0)
  | Dir.D => (1, 0)
  | Dir.L => (0, -1)
  | Dir.R => (0, 1)

/-- Cell access `g[r][c]`; out-of-range access yields `none` (the source only
reads in bounds, its loops are guarded by explicit bounds checks). -/
def getCell (g : Grid) (r c : Nat) : Option Cell :=
  (g.getD r []).getD c none

/-- Cell update `g[r][c] = v`; out-of-range indices leave the grid unchanged
(the source only writes in bounds). -/
def setCell (g : Grid) (r c : Nat) (v : Option Cell) : Grid :=
  g.set r ((g.getD r []).set c v)

/-- The all-`null` rows×cols matrix built by `Array.from` in the source. -/
def emptyGrid (rows cols : Nat) : Grid :=
  List.replicate rows (List.replicate cols none)

/-- Source `allEmpty`: every cell of every row is `null`. -/
def allEmpty (g : Grid) : Bool :=
  g.all fun row => row.all fun c => c.isNone

/-- Row-major list of coordinates `(r, c)` with `r < rows`, `c < cols`,
the iteration order of the source's nested `for` loops. -/
def rowMajor (rows cols : Nat) : List (Nat × Nat) :=
  (List.range rows).flatMap fun r => (List.range cols).map fun c => (r, c)

/-- In-bounds test of the walk loop of `canExit`:
`rr >= 0 && rr < H && cc >= 0 && cc < W` with `H = grid.length`,
`W = grid[0].length`. -/
abbrev inBoundsI (g : Grid) (rr cc : Int) : Prop :=
  0 ≤ rr ∧ rr < (g.length : Int) ∧ 0 ≤ cc ∧ cc < ((g.getD 0 []).length : Int)

/-- The walk loop of `canExit`: step from `(rr, cc)` by `(dr, dc)` while in
bounds; a cell of a different piece blocks (return false); leaving the board
means the path is clear (return true).  The `fuel` argument only bounds the
recursion for Lean; the source loop leaves the board after at most `H + W`
steps, and `canExit` passes exactly that much fuel, so the fuel-0 arm is
never reached from `canExit`. -/
def walkClear (g : Grid) (i : Nat) (dr dc : Int) : Nat → Int → Int → Bool
  | 0, _, _ => true
  | fuel + 1, rr, cc =>
    if inBoundsI g rr cc then
      match getCell g rr.toNat cc.toNat with
      | some other =>
        if other.id ≠ i then false
        else walkClear g i dr dc fuel (rr + dr) (cc + dc)
      | none => walkClear g i dr dc fuel (rr + dr) (cc + dc)
    else true

/-- Source `canExit(grid, r, c)`: false unless the cell holds a head segment;
otherwise walk from one step beyond `(r, c)` in the piece's direction. -/
def canExit (g : Grid) (r c : Nat) : Bool :=
  match getCell g r c with
  | none => false
  | some cell =>
    cell.head &&
      walkClear g cell.id (dirVec cell.dir).1 (dirVec cell.dir).2
        (g.length + (g.getD 0 []).length)
        ((r : Int) + (dirVec cell.dir).1) ((c : Int) + (dirVec cell.dir).2)

/-- Piece id of a cell, `c ? c.id : 0` of the source. -/
def cellId : Option Cell → Nat
  | none => 0
  | some p => p.id

/-- Decimal digits of `n`, most significant first; models the JavaScript
number-to-string conversion performed implicitly by `join`.  The fuel
`n + 1` supplied by `natStr` always suffices since `n / 10 < n`. -/
def natStrAux : Nat → Nat → List Char
  | 0, _ => []
  | fuel + 1, n =>
    if n < 10 then [Nat.digitChar n]
    else natStrAux fuel (n / 10) ++ [Nat.digitChar (n % 10)]

/-- Decimal string of a natural number. -/
def natStr (n : Nat) : List Char :=
  natStrAux (n + 1) n

/-- `Array.prototype.join(sep)`: elements interleaved with the separator. -/
def joinSep (sep : Char) : List (List Char) → List Char
  | [] => []
  | [x] => x
  | x :: y :: xs => x ++ sep :: joinSep sep (y :: xs)

/-- Source `serializeGrid`: each cell becomes its piece id (0 for empty),
cells joined by `,`, rows joined by `;`. -/
def serializeGrid (g : Grid) : String :=
  String.mk (joinSep ';' (g.map fun row => joinSep ',' (row.map fun c => natStr (cellId c))))

/-- Source `removeId`: clear every cell whose piece id equals `i`.  The
source iterates `r < rows`, `c < cols` over a clone; since every search
grid has exactly those dimensions, mapping over the grid is the same
update, on value semantics. -/
def removeId (g : Grid) (i : Nat) : Grid :=
  g.map fun row => row.map fun c =>
    match c with
    | some p => if p.id = i then none else some p
    | none => none

/-- A BFS queue entry `{ grid, seq }` of the source. -/
structure Node where
  grid : Grid
  seq : List (Nat × Nat)

/-- The removable-head scan of the solver loop: all coordinates, in
row-major order, holding a head whose piece can exit. -/
def findMoves (g : Grid) : List (Nat × Nat) :=
  (rowMajor g.length (g.getD 0 []).length).filter fun rc =>
    match getCell g rc.1 rc.2 with
    | some p => p.head && canExit g rc.1 rc.2
    | none => false

/-- The successor loop of the solver: for each move, remove the piece at the
move's coordinate, skip states whose key is already visited, and otherwise
record the key and enqueue the successor with the move appended. -/
def expand (g : Grid) (seq : List (Nat × Nat)) :
    List (Nat × Nat) → List String → List String × List Node
  | [], visited => (visited, [])
  | (r, c) :: rest, visited =>
    let i := cellId (getCell g r c)
    let ng := removeId g i
    let key := serializeGrid ng
    if visited.contains key then expand g seq rest visited
    else
      let p := expand g seq rest (key :: visited)
      (p.1, ⟨ng, seq ++ [(r, c)]⟩ :: p.2)

/-- The while loop of `findSolutionLimited`.  Per dequeued node the state
counter is incremented and checked against the cap, then the goal test and
the successor expansion run.  The second component of the result is the
final value of the `states` counter (the number of dequeues).  `fuel` only
bounds the recursion for Lean: the cap check aborts no later than after
`maxStates + 1` dequeues, so with the fuel passed by `findSolutionLimited`
the fuel-0 arm is unreachable, which `bfs_fst_fuel_irrel` below proves. -/
def bfsAux (maxStates : Nat) : Nat → Nat → List String → List Node →
    Option (List (Nat × Nat)) × Nat
  | _, states, _, [] => (none, states)
  | 0, states, _, _ :: _ => (none, states)
  | fuel + 1, states, visited, node :: rest =>
    if states + 1 > maxStates then (none, states + 1)
    else if allEmpty node.grid then (some node.seq, states + 1)
    else
      let p := expand node.grid node.seq (findMoves node.grid) visited
      bfsAux maxStates fuel (states + 1) p.1 (rest ++ p.2)

/-- Source `findSolutionLimited(startGrid, maxStates)`: BFS from the start
grid, visited set seeded with the start key, returning the move list of the
first all-empty state or `null`. -/
def findSolutionLimited (startGrid : Grid) (maxStates : Nat) :
    Option (List (Nat × Nat)) :=
  (bfsAux maxStates (maxStates + 1) 0 [serializeGrid startGrid] [⟨startGrid, []⟩]).1

/-- Replay check for a solver result (the property stated by the spec): an
empty move list requires the grid to be all-empty already; a move `(r, c)`
requires an occupied cell there whose piece can exit, and removes every
cell sharing that piece's id before checking the rest. -/
def checkSeq (g : Grid) : List (Nat × Nat) → Bool
  | [] => allEmpty g
  | (r, c) :: ms =>
    match getCell g r c with
    | none => false
    | some p => canExit g r c && checkSeq (removeId g p.id) ms

/-- Piece ids of the occupied cells of a grid, in row-major order, with
multiplicity. -/
def idsOf (g : Grid) : List Nat :=
  g.flatten.filterMap fun c =>
    match c with
    | some p => some p.id
    | none => none

/-- Ids named by a move sequence: the id at each move's coordinate in the
state just before that move. -/
def collectIds (g : Grid) : List (Nat × Nat) → List Nat
  | [] => []
  | (r, c) :: ms =>
    cellId (getCell g r c) :: collectIds (removeId g (cellId (getCell g r c))) ms

/-- One batch of random draws of the generator's per-cell body, abstracting
`Math.random()`: `place` models `Math.random() < density` (the source skips
the cell when `Math.random() >= density`), `dirIdx` models
`Math.floor(Math.random() * dirs.length)`, and `lenDraw` models
`Math.floor(Math.random() * maxLen)` (so the piece length is
`1 + lenDraw`; leaving `lenDraw` an arbitrary natural covers every draw
the source can make).  Density and maximum length thus live inside the
oracle, not as separate parameters. -/
structure GenChoice where
  place : Bool
  dirIdx : Fin 4
  lenDraw : Nat

/-- Source `dirs[idx]` with `dirs = ['U', 'D', 'L', 'R']`. -/
def dirOfIdx (i : Fin 4) : Dir :=
  [Dir.U, Dir.D, Dir.L, Dir.R].get i

/-- The per-cell body of the generator's scan: skip an occupied cell, skip
when the density draw fails; otherwise try to lay a piece whose head is the
scanned cell and whose remaining segments extend opposite to the drawn
direction.  If any required position is out of bounds or occupied the
placement is abandoned; otherwise all `len` cells are written (head at
`k = 0`) and the id counter advances. -/
def tryPlace (rows cols : Nat) (ch : GenChoice) (st : Grid × Nat) (rc : Nat × Nat) :
    Grid × Nat :=
  let g := st.1
  let ctr := st.2
  let r := rc.1
  let c := rc.2
  if (getCell g r c).isSome then st
  else if !ch.place then st
  else
    let d := dirOfIdx ch.dirIdx
    let len := 1 + ch.lenDraw
    let dr := (dirVec d).1
    let dc := (dirVec d).2
    if (List.range len).all (fun (k : Nat) =>
        decide (0 ≤ (r : Int) - dr * k) && decide ((r : Int) - dr * k < (rows : Int)) &&
        decide (0 ≤ (c : Int) - dc * k) && decide ((c : Int) - dc * k < (cols : Int)) &&
        (getCell g ((r : Int) - dr * k).toNat ((c : Int) - dc * k).toNat).isNone) then
      ((List.range len).foldl (fun (h : Grid) (k : Nat) =>
        setCell h ((r : Int) - dr * k).toNat ((c : Int) - dc * k).toNat
          (some ⟨ctr, d, len, k == 0⟩)) g, ctr + 1)
    else st

/-- One generation attempt: scan the empty grid in row-major order, feeding
each cell its oracle draw, threading the grid and the id counter. -/
def buildCandidate (rows cols : Nat) (ch : Nat → Nat → GenChoice) (ctr0 : Nat) :
    Grid × Nat :=
  (rowMajor rows cols).foldl (fun st rc => tryPlace rows cols (ch rc.1 rc.2) st rc)
    (emptyGrid rows cols, ctr0)

/-- Source `hasArrow`: some cell is occupied. -/
def hasArrow (g : Grid) : Bool :=
  g.any fun row => row.any fun c => c.isSome

/-- Source `hasImmediateExit`: some head can exit right now (conjoined with
`hasArrow` exactly as in the source). -/
def hasImmediateExit (g : Grid) : Bool :=
  hasArrow g && ((rowMajor g.length (g.getD 0 []).length).any fun rc =>
    match getCell g rc.1 rc.2 with
    | some p => p.head && canExit g rc.1 rc.2
    | none => false)

/-- Acceptance test of one attempt: the source returns the candidate when
`hasArrow && hasImmediateExit` holds and `findSolutionLimited(g, 20000)` is
non-null (an empty move array is truthy in JavaScript, hence `isSome`). -/
def accepted (g : Grid) : Bool :=
  hasArrow g && hasImmediateExit g && (findSolutionLimited g 20000).isSome

/-- The fallback layout of the source: two cells of piece 1 (direction `R`,
recorded length 1, head at column 0) at the top-left when `rows >= 1 &&
cols >= 2`; otherwise the grid is left all-empty. -/
def fallbackGrid (rows cols : Nat) : Grid :=
  let fb := emptyGrid rows cols
  if 1 ≤ rows ∧ 2 ≤ cols then
    let fb1 := setCell fb 0 0 (some ⟨1, Dir.R, 1, true⟩)
    if 1 < cols then setCell fb1 0 1 (some ⟨1, Dir.R, 1, false⟩) else fb1
  else fb

/-- The attempt loop of the generator: build a candidate with the oracle of
the current attempt, return it when accepted, otherwise retry with the id
counter carried over; after the last attempt return the fallback.  The
cooperative `await` every 20 attempts of the source is scheduling only and
has no effect on the returned value. -/
def genLoop (rows cols : Nat) (ch : Nat → Nat → Nat → GenChoice) :
    Nat → Nat → Nat → Grid
  | 0, _, _ => fallbackGrid rows cols
  | rem + 1, a, ctr =>
    let p := buildCandidate rows cols (ch a) ctr
    if accepted p.1 then p.1 else genLoop rows cols ch rem (a + 1) p.2

/-- Source `generateRandomLevelAsync(rows, cols, density, maxLen,
maxAttempts)` with the random draws supplied by the oracle `ch` (attempt,
row, column ↦ draws); the id counter starts at 1. -/
def generateRandomLevelAsync (rows cols maxAttempts : Nat)
    (ch : Nat → Nat → Nat → GenChoice) : Grid :=
  genLoop rows cols ch maxAttempts 0 1

/-- Number of cells of the grid satisfying a predicate (proof support for
the counting arguments below). -/
def countPG (p : Option Cell → Bool) (g : Grid) : Nat :=
  (g.map fun row => row.countP p).sum

/-- Number of cells of piece `i` in the grid. -/
def countId (g : Grid) (i : Nat) : Nat :=
  countPG (fun c =>
    match c with
    | some q => decide (q.id = i)
    | none => false) g

/-- Number of head cells of piece `i` in the grid. -/
def countHead (g : Grid) (i : Nat) : Nat :=
  countPG (fun c =>
    match c with
    | some q => decide (q.id = i) && q.head
    | none => false) g

/-- Dimension statement: `rows` rows, each of width `cols`. -/
def GDims (g : Grid) (rows cols : Nat) : Prop :=
  g.length = rows ∧ ∀ r : Nat, r < rows → (g.getD r []).length = cols

/-- Every piece id occurring in the grid is below the counter. -/
def IdsBelow (g : Grid) (ctr : Nat) : Prop :=
  ∀ (r c : Nat) (q : Cell), getCell g r c = some q → q.id < ctr

/-- Run check for a head cell `(r, c)` holding `p`: walking backward from
the head (opposite to the piece's direction), the `p.len` positions are in
bounds and hold exactly the segments of piece `p` (head at `k = 0`). -/
def runOk (g : Grid) (r c : Nat) (p : Cell) : Bool :=
  (List.range p.len).all fun k =>
    decide (0 ≤ (r : Int) - (dirVec p.dir).1 * k) &&
    decide (0 ≤ (c : Int) - (dirVec p.dir).2 * k) &&
    decide (getCell g ((r : Int) - (dirVec p.dir).1 * k).toNat
      ((c : Int) - (dirVec p.dir).2 * k).toNat =
      some ⟨p.id, p.dir, p.len, k == 0⟩)

/-- Per-cell invariant check: an occupied cell's piece has exactly one head,
and a head cell's piece is a straight contiguous in-bounds run of exactly
`len` cells (`runOk` plus the cell count). -/
def headOk (g : Grid) (rc : Nat × Nat) : Bool :=
  match getCell g rc.1 rc.2 with
  | none => true
  | some p =>
    decide (countHead g p.id = 1) &&
    (!p.head || (runOk g rc.1 rc.2 p && decide (countId g p.id = p.len)))

/-- Grid invariant of the spec: every piece is a straight contiguous
in-bounds run of exactly `length` cells with exactly one head (overlap is
impossible in the cell-matrix representation). -/
def checkInv (g : Grid) : Bool :=
  (rowMajor g.length (g.getD 0 []).length).all (headOk g)

/-- As `headOk` but without the exactly-`len`-cells count. -/
def headOkNoLen (g : Grid) (rc : Nat × Nat) : Bool :=
  match getCell g rc.1 rc.2 with
  | none => true
  | some p =>
    decide (countHead g p.id = 1) && (!p.head || runOk g rc.1 rc.2 p)

/-- Grid invariant weakened by dropping the exactly-`length`-cells clause. -/
def checkInvNoLen (g : Grid) : Bool :=
  (rowMajor g.length (g.getD 0 []).length).all (headOkNoLen g)

/-- Replay relation: `ReplayOk g s h` holds when playing the moves `s` from
grid `g` — each move hitting an occupied, exitable cell and removing that
cell's whole piece — ends exactly at grid `h`. -/
def ReplayOk : Grid → List (Nat × Nat) → Grid → Prop
  | g, [], h => h = g
  | g, (r, c) :: ms, h =>
    ∃ p : Cell, getCell g r c = some p ∧ canExit g r c = true ∧
      ReplayOk (removeId g p.id) ms h

/-- A 2×2 grid with one removable length-1 piece at the origin. -/
def sampleSolo : Grid := [[some ⟨1, Dir.R, 1, true⟩, none], [none, none]]

/-- A 1×2 grid with two length-1 pieces blocking each other. -/
def sampleBlocked : Grid := [[some ⟨1, Dir.R, 1, true⟩, some ⟨2, Dir.L, 1, true⟩]]

/-- A 1×2 grid whose single head has an empty cell on its exit path. -/
def sampleGap : Grid := [[some ⟨1, Dir.R, 1, true⟩, none]]

/-- A 1×1 grid holding a head of piece 7. -/
def sampleHeadA : Grid := [[some ⟨7, Dir.R, 1, true⟩]]

/-- A 1×1 grid holding a non-head segment of piece 7 with other attributes
changed. -/
def sampleBodyB : Grid := [[some ⟨7, Dir.L, 2, false⟩]]

/-- The oracle that never places a piece. -/
def chNone : Nat → Nat → Nat → GenChoice := fun _ _ _ => ⟨false, 0, 0⟩

/-- Numeric value of a decimal digit string; proof support for the
injectivity of `serializeGrid`. -/
def strVal (l : List Char) : Nat :=
  l.foldl (fun a ch => a * 10 + (ch.toNat - 48)) 0

/-- Declarative clear-path predicate (the code's behaviour): every in-bounds
cell strictly beyond the head cell `(r, c)` along `(dr, dc)` is empty or
belongs to piece `i`. -/
def ClearSpec (g : Grid) (i : Nat) (r c : Nat) (dr dc : Int) : Prop :=
  ∀ k : Nat, 1 ≤ k → inBoundsI g ((r : Int) + dr * k) ((c : Int) + dc * k) →
    (getCell g ((r : Int) + dr * k).toNat ((c : Int) + dc * k).toNat = none ∨
      ∃ q : Cell, getCell g ((r : Int) + dr * k).toNat ((c : Int) + dc * k).toNat = some q ∧
        q.id = i)

/-- Literal reading of the spec sentence: every in-bounds cell strictly
beyond the head belongs to piece `i` (an empty cell is not allowed). -/
def ClearSpecStrict (g : Grid) (i : Nat) (r c : Nat) (dr dc : Int) : Prop :=
  ∀ k : Nat, 1 ≤ k → inBoundsI g ((r : Int) + dr * k) ((c : Int) + dc * k) →
    ∃ q : Cell, getCell g ((r : Int) + dr * k).toNat ((c : Int) + dc * k).toNat = some q ∧
      q.id = i

section SolverLemmas

lemma bfsAux_nil (ms fuel states : Nat) (v : List String) :
    bfsAux ms fuel states v [] = (none, states) := by
  cases fuel <;> rfl

lemma bfsAux_zero (ms states : Nat) (v : List String) (node : Node) (rest : List Node) :
    bfsAux ms 0 states v (node :: rest) = (none, states) := rfl

lemma bfsAux_cons (ms fuel states : Nat) (v : List String) (node : Node) (rest : List Node) :
    bfsAux ms (fuel + 1) states v (node :: rest) =
      if states + 1 > ms then (none, states + 1)
      else if allEmpty node.grid then (some node.seq, states + 1)
      else
        bfsAux ms fuel (states + 1) (expand node.grid node.seq (findMoves node.grid) v).1
          (rest ++ (expand node.grid node.seq (findMoves node.grid) v).2) := rfl

lemma replayOk_snoc :
    ∀ (s : List (Nat × Nat)) (g h : Grid), ReplayOk g s h →
      ∀ (r c : Nat) (p : Cell), getCell h r c = some p → canExit h r c = true →
        ReplayOk g (s ++ [(r, c)]) (removeId h p.id) := by
  intro s
  induction s with
  | nil =>
    intro g h hre r c p hp hce
    have hg : h = g := hre
    subst hg
    exact ⟨p, hp, hce, rfl⟩
  | cons m ms ih =>
    intro g h hre r c p hp hce
    obtain ⟨m1, m2⟩ := m
    obtain ⟨q, hq, hqe, hrest⟩ := hre
    exact ⟨q, hq, hqe, ih _ _ hrest r c p hp hce⟩

lemma replayOk_checkSeq :
    ∀ (s : List (Nat × Nat)) (g h : Grid), ReplayOk g s h → allEmpty h = true →
      checkSeq g s = true := by
  intro s
  induction s with
  | nil =>
    intro g h hre hemp
    have hg : h = g := hre
    subst hg
    exact hemp
  | cons m ms ih =>
    intro g h hre hemp
    obtain ⟨m1, m2⟩ := m
    obtain ⟨q, hq, hqe, hrest⟩ := hre
    simp only [checkSeq, hq, Bool.and_eq_true]
    exact ⟨hqe, ih _ _ hrest hemp⟩

lemma mem_findMoves {g : Grid} {rc : Nat × Nat} (h : rc ∈ findMoves g) :
    ∃ p : Cell, getCell g rc.1 rc.2 = some p ∧ p.head = true ∧
      canExit g rc.1 rc.2 = true := by
  unfold findMoves at h
  rw [List.mem_filter] at h
  obtain ⟨-, hpred⟩ := h
  cases hcell : getCell g rc.1 rc.2 with
  | none => rw [hcell] at hpred; simp at hpred
  | some p =>
    rw [hcell] at hpred
    simp only [Bool.and_eq_true] at hpred
    exact ⟨p, rfl, hpred.1, hpred.2⟩

lemma expand_inv (g₀ g : Grid) (seq : List (Nat × Nat)) (hre : ReplayOk g₀ seq g) :
    ∀ (moves : List (Nat × Nat)) (visited : List String),
      (∀ m ∈ moves, ∃ p : Cell, getCell g m.1 m.2 = some p ∧ canExit g m.1 m.2 = true) →
      ∀ n ∈ (expand g seq moves visited).2, ReplayOk g₀ n.seq n.grid := by
  intro moves
  induction moves with
  | nil => intro visited _ n hn; simp [expand] at hn
  | cons m rest ih =>
    intro visited hmv n hn
    obtain ⟨r, c⟩ := m
    simp only [expand] at hn
    split at hn
    · exact ih visited (fun m hm => hmv m (List.mem_cons_of_mem _ hm)) n hn
    · rw [List.mem_cons] at hn
      rcases hn with hn | hn
      · obtain ⟨p, hp, hce⟩ := hmv (r, c) (List.mem_cons_self _ _)
        subst hn
        have hid : cellId (getCell g r c) = p.id := by rw [hp]; rfl
        simpa [hid] using replayOk_snoc seq g₀ g hre r c p hp hce
      · exact ih _ (fun m hm => hmv m (List.mem_cons_of_mem _ hm)) n hn

lemma bfs_sound (g₀ : Grid) (ms : Nat) :
    ∀ (fuel states : Nat) (v : List String) (queue : List Node),
      (∀ n ∈ queue, ReplayOk g₀ n.seq n.grid) →
      ∀ s, (bfsAux ms fuel states v queue).1 = some s → checkSeq g₀ s = true := by
  intro fuel
  induction fuel with
  | zero =>
    intro states v queue hinv s hres
    cases queue with
    | nil => rw [bfsAux_nil] at hres; simp at hres
    | cons node rest => rw [bfsAux_zero] at hres; simp at hres
  | succ fuel ih =>
    intro states v queue hinv s hres
    cases queue with
    | nil => rw [bfsAux_nil] at hres; simp at hres
    | cons node rest =>
      rw [bfsAux_cons] at hres
      split_ifs at hres with hcap hemp
      · have hs : node.seq = s := by simpa using hres
        rw [← hs]
        exact replayOk_checkSeq node.seq g₀ node.grid (hinv node (List.mem_cons_self _ _)) hemp
      · refine ih (states + 1) _ _ ?_ s hres
        intro n hn
        rw [List.mem_append] at hn
        rcases hn with hn | hn
        · exact hinv n (List.mem_cons_of_mem _ hn)
        · refine expand_inv g₀ node.grid node.seq (hinv node (List.mem_cons_self _ _))
            (findMoves node.grid) v ?_ n hn
          intro m hm
          obtain ⟨p, hp, -, hce⟩ := mem_findMoves hm
          exact ⟨p, hp, hce⟩

lemma findSolution_checkSeq (g : Grid) (cap : Nat) (s : List (Nat × Nat))
    (h : findSolutionLimited g cap = some s) : checkSeq g s = true := by
  refine bfs_sound g cap (cap + 1) 0 [serializeGrid g] [⟨g, []⟩] ?_ s h
  intro n hn
  rw [List.mem_singleton] at hn
  subst hn
  exact rfl

end SolverLemmas

/-- C1.  Solver soundness: whenever `findSolutionLimited` returns a move
sequence, replaying it from the start grid — each move hitting an occupied
cell whose piece can exit, and removing every cell of that piece — ends in
the all-empty grid. -/
theorem solver_sound (g : Grid) (cap : Nat) (s : List (Nat × Nat))
    (h : findSolutionLimited g cap = some s) : checkSeq g s = true :=
  findSolution_checkSeq g cap s h

/-- Witness for C1 at a concrete solvable grid. -/
theorem solver_sound_witness :
    findSolutionLimited sampleSolo 20000 = some [(0, 0)] ∧
      checkSeq sampleSolo [(0, 0)] = true :=
  ⟨by decide, solver_sound sampleSolo 20000 [(0, 0)] (by decide)⟩

section CountLemmas

lemma mem_of_getD {α : Type} :
    ∀ (l : List α) (n : Nat) (d a : α), l.getD n d = a → a = d ∨ a ∈ l := by
  intro l
  induction l with
  | nil => intro n d a h; left; simpa using h.symm
  | cons x xs ih =>
    intro n d a h
    cases n with
    | zero =>
      right
      rw [List.mem_cons]
      left
      have hx : x = a := by simpa using h
      exact hx.symm
    | succ n =>
      rcases ih n d a (by simpa using h) with h1 | h1
      · left; exact h1
      · right; exact List.mem_cons_of_mem _ h1

lemma getCell_mem {g : Grid} {r c : Nat} {p : Cell} (h : getCell g r c = some p) :
    ∃ row ∈ g, some p ∈ row := by
  unfold getCell at h
  rcases mem_of_getD _ _ _ _ h with h1 | h1
  · exact absurd h1 (by simp)
  · rcases mem_of_getD g r [] _ rfl with h2 | h2
    · rw [h2] at h1; simp at h1
    · exact ⟨_, h2, h1⟩

lemma mem_idsOf {g : Grid} {r c : Nat} {p : Cell} (h : getCell g r c = some p) :
    p.id ∈ idsOf g := by
  obtain ⟨row, hrow, hcell⟩ := getCell_mem h
  unfold idsOf
  rw [List.mem_filterMap]
  exact ⟨some p, List.mem_flatten.mpr ⟨row, hrow, hcell⟩, rfl⟩

lemma allEmpty_iff {g : Grid} :
    allEmpty g = true ↔ ∀ row ∈ g, ∀ c ∈ row, c = none := by
  simp [allEmpty, List.all_eq_true, Option.isNone_iff_eq_none]

lemma idsOf_eq_nil {g : Grid} (h : allEmpty g = true) : idsOf g = [] := by
  rw [allEmpty_iff] at h
  unfold idsOf
  rw [List.filterMap_eq_nil_iff]
  intro a ha
  rw [List.mem_flatten] at ha
  obtain ⟨row, hrow, hcell⟩ := ha
  have hn : a = none := h row hrow a hcell
  rw [hn]

lemma idsOf_removeId (g : Grid) (i : Nat) :
    idsOf (removeId g i) = (idsOf g).filter fun j => !decide (j = i) := by
  unfold idsOf removeId
  rw [← List.map_flatten]
  generalize g.flatten = l
  induction l with
  | nil => rfl
  | cons x xs ih =>
    cases x with
    | none => simpa using ih
    | some p =>
      by_cases hp : p.id = i
      · simpa [hp] using ih
      · simpa [hp] using ih

lemma toFinset_filter_ne (l : List Nat) (i : Nat) :
    (l.filter fun j => !decide (j = i)).toFinset = l.toFinset.erase i := by
  ext j
  simp only [List.mem_toFinset, List.mem_filter, Finset.mem_erase, Bool.not_eq_true',
    decide_eq_false_iff_not]
  exact and_comm

lemma dedup_length_filter (l : List Nat) (i : Nat) (h : i ∈ l) :
    ((l.filter fun j => !decide (j = i)).dedup.length) + 1 = l.dedup.length := by
  have h1 := List.card_toFinset (l.filter fun j => !decide (j = i))
  have h2 := List.card_toFinset l
  rw [toFinset_filter_ne] at h1
  have h3 : (l.toFinset.erase i).card = l.toFinset.card - 1 :=
    Finset.card_erase_of_mem (List.mem_toFinset.mpr h)
  have h4 : 1 ≤ l.toFinset.card := Finset.card_pos.mpr ⟨i, List.mem_toFinset.mpr h⟩
  omega

lemma checkSeq_counts :
    ∀ (s : List (Nat × Nat)) (g : Grid), checkSeq g s = true →
      s.length = (idsOf g).dedup.length ∧ (collectIds g s).Nodup ∧
        ∀ i ∈ collectIds g s, i ∈ idsOf g := by
  intro s
  induction s with
  | nil =>
    intro g hc
    have hemp : allEmpty g = true := hc
    rw [idsOf_eq_nil hemp]
    exact ⟨rfl, List.nodup_nil, by simp [collectIds]⟩
  | cons m ms ih =>
    intro g hc
    obtain ⟨r, c⟩ := m
    revert hc
    cases hcell : getCell g r c with
    | none => intro hc; simp [checkSeq, hcell] at hc
    | some p =>
      intro hc
      simp only [checkSeq, hcell, Bool.and_eq_true] at hc
      obtain ⟨hce, hrest⟩ := hc
      obtain ⟨ihlen, ihnd, ihsub⟩ := ih (removeId g p.id) hrest
      have hidm : p.id ∈ idsOf g := mem_idsOf hcell
      have hcid : cellId (getCell g r c) = p.id := by rw [hcell]; rfl
      have hcol : collectIds g ((r, c) :: ms) =
          p.id :: collectIds (removeId g p.id) ms := by
        simp [collectIds, hcid]
      have hflt := dedup_length_filter (idsOf g) p.id hidm
      rw [idsOf_removeId] at ihlen
      refine ⟨by simp only [List.length_cons]; omega, ?_, ?_⟩
      · rw [hcol, List.nodup_cons]
        refine ⟨?_, ihnd⟩
        intro hmem
        have hin := ihsub _ hmem
        rw [idsOf_removeId, List.mem_filter] at hin
        simp at hin
      · intro i hi
        rw [hcol, List.mem_cons] at hi
        rcases hi with rfl | hi
        · exact hidm
        · have hin := ihsub _ hi
          rw [idsOf_removeId, List.mem_filter] at hin
          exact hin.1

lemma allEmpty_emptyGrid (rows cols : Nat) : allEmpty (emptyGrid rows cols) = true := by
  rw [allEmpty_iff]
  intro row hrow c hc
  rw [List.eq_of_mem_replicate hrow] at hc
  exact List.eq_of_mem_replicate hc

lemma findSolution_empty (rows cols cap : Nat) (h : 1 ≤ cap) :
    findSolutionLimited (emptyGrid rows cols) cap = some [] := by
  unfold findSolutionLimited
  rw [bfsAux_cons]
  have h1 : ¬ (0 + 1 > cap) := by omega
  simp [h1, allEmpty_emptyGrid]

end CountLemmas

/-- C10.  A returned Solution has one move per distinct piece id of the start
grid, the moves name pairwise distinct ids, and the solver returns the empty
move sequence on an all-empty start grid whenever the cap is at least 1. -/
theorem solver_solution_counts :
    (∀ (g : Grid) (cap : Nat) (s : List (Nat × Nat)), findSolutionLimited g cap = some s →
      s.length = (idsOf g).dedup.length ∧ (collectIds g s).Nodup) ∧
    (∀ rows cols cap : Nat, 1 ≤ cap →
      findSolutionLimited (emptyGrid rows cols) cap = some []) := by
  constructor
  · intro g cap s h
    obtain ⟨h1, h2, -⟩ := checkSeq_counts s g (findSolution_checkSeq g cap s h)
    exact ⟨h1, h2⟩
  · exact findSolution_empty

/-- Witness for C10 at a concrete solvable grid and a concrete empty grid. -/
theorem solver_solution_counts_witness :
    ([(0, 0)] : List (Nat × Nat)).length = (idsOf sampleSolo).dedup.length ∧
      (collectIds sampleSolo [(0, 0)]).Nodup ∧
      findSolutionLimited (emptyGrid 2 2) 1 = some [] := by
  obtain ⟨h1, h2⟩ := solver_solution_counts.1 sampleSolo 20000 [(0, 0)] (by decide)
  exact ⟨h1, h2, solver_solution_counts.2 2 2 1 (by decide)⟩

section BoundLemmas

lemma bfs_count_le (ms : Nat) :
    ∀ (fuel states : Nat) (v : List String) (q : List Node), states ≤ ms →
      (bfsAux ms fuel states v q).2 ≤ ms + 1 := by
  intro fuel
  induction fuel with
  | zero =>
    intro states v q hs
    cases q with
    | nil => rw [bfsAux_nil]; omega
    | cons n rest => rw [bfsAux_zero]; omega
  | succ fuel ih =>
    intro states v q hs
    cases q with
    | nil => rw [bfsAux_nil]; omega
    | cons n rest =>
      rw [bfsAux_cons]
      split_ifs with hcap hemp
      · simp only; omega
      · simp only; omega
      · exact ih _ _ _ (by omega)

lemma bfs_fst_fuel_irrel (ms : Nat) :
    ∀ (f1 f2 states : Nat) (v : List String) (q : List Node),
      ms < f1 + states → ms < f2 + states →
      (bfsAux ms f1 states v q).1 = (bfsAux ms f2 states v q).1 := by
  intro f1
  induction f1 with
  | zero =>
    intro f2 states v q h1 h2
    cases q with
    | nil => rw [bfsAux_nil, bfsAux_nil]
    | cons n rest =>
      rw [bfsAux_zero]
      cases f2 with
      | zero => rw [bfsAux_zero]
      | succ f2 =>
        rw [bfsAux_cons, if_pos (show states + 1 > ms by omega)]
  | succ f1 ih =>
    intro f2 states v q h1 h2
    cases q with
    | nil => rw [bfsAux_nil, bfsAux_nil]
    | cons n rest =>
      cases f2 with
      | zero =>
        rw [bfsAux_zero, bfsAux_cons, if_pos (show states + 1 > ms by omega)]
      | succ f2 =>
        rw [bfsAux_cons, bfsAux_cons]
        split_ifs with hcap hemp
        · rfl
        · rfl
        · exact ih f2 (states + 1) _ _ (by omega) (by omega)

lemma bfs_abort (ms fuel states : Nat) (v : List String) (node : Node)
    (rest : List Node) (h : states + 1 > ms) :
    bfsAux ms (fuel + 1) states v (node :: rest) = (none, states + 1) := by
  rw [bfsAux_cons, if_pos h]

end BoundLemmas

/-- C4.  Bounded termination of the solver: the dequeue counter of a run
never exceeds `cap + 1`; the result does not depend on the recursion bound
once that bound covers `cap + 1` dequeues (the cap, not the bound, stops
the search, so the loop can never run unboundedly); and a dequeue that
drives the counter beyond the cap reports not-found immediately. -/
theorem solver_bounded (g : Grid) (cap : Nat) :
    (bfsAux cap (cap + 1) 0 [serializeGrid g] [⟨g, []⟩]).2 ≤ cap + 1 ∧
    (∀ f : Nat, cap + 1 ≤ f →
      (bfsAux cap f 0 [serializeGrid g] [⟨g, []⟩]).1 = findSolutionLimited g cap) ∧
    (∀ (fuel states : Nat) (v : List String) (node : Node) (rest : List Node),
      cap < states + 1 →
      bfsAux cap (fuel + 1) states v (node :: rest) = (none, states + 1)) := by
  refine ⟨bfs_count_le cap (cap + 1) 0 _ _ (by omega), ?_, ?_⟩
  · intro f hf
    exact bfs_fst_fuel_irrel cap f (cap + 1) 0 _ _ (by omega) (by omega)
  · intro fuel states v node rest h
    exact bfs_abort cap fuel states v node rest (by omega)

/-- Witness for C4 at a concrete grid and cap. -/
theorem solver_bounded_witness :
    (bfsAux 2 3 0 [serializeGrid sampleBlocked] [⟨sampleBlocked, []⟩]).2 ≤ 3 ∧
      (bfsAux 2 5 0 [serializeGrid sampleBlocked] [⟨sampleBlocked, []⟩]).1 =
        findSolutionLimited sampleBlocked 2 ∧
      bfsAux 2 1 7 [] [⟨sampleBlocked, []⟩] = (none, 8) := by
  obtain ⟨h1, h2, h3⟩ := solver_bounded sampleBlocked 2
  exact ⟨h1, h2 5 (by decide), h3 0 7 [] ⟨sampleBlocked, []⟩ [] (by decide)⟩

section ExitLemmas

lemma walkClear_succ (g : Grid) (i : Nat) (dr dc : Int) (fuel : Nat) (rr cc : Int) :
    walkClear g i dr dc (fuel + 1) rr cc =
      if inBoundsI g rr cc then
        match getCell g rr.toNat cc.toNat with
        | some other =>
          if other.id ≠ i then false
          else walkClear g i dr dc fuel (rr + dr) (cc + dc)
        | none => walkClear g i dr dc fuel (rr + dr) (cc + dc)
      else true := rfl

lemma canExit_some {g : Grid} {r c : Nat} {p : Cell} (h : getCell g r c = some p) :
    canExit g r c =
      (p.head &&
        walkClear g p.id (dirVec p.dir).1 (dirVec p.dir).2
          (g.length + (g.getD 0 []).length)
          ((r : Int) + (dirVec p.dir).1) ((c : Int) + (dirVec p.dir).2)) := by
  unfold canExit
  rw [h]

lemma canExit_none {g : Grid} {r c : Nat} (h : getCell g r c = none) :
    canExit g r c = false := by
  unfold canExit
  rw [h]

lemma walkClear_succ_oob {g : Grid} {i : Nat} {dr dc : Int} {fuel : Nat} {rr cc : Int}
    (h : ¬ inBoundsI g rr cc) :
    walkClear g i dr dc (fuel + 1) rr cc = true := by
  rw [walkClear_succ, if_neg h]

lemma walkClear_succ_some {g : Grid} {i : Nat} {dr dc : Int} {fuel : Nat} {rr cc : Int}
    {other : Cell} (h : getCell g rr.toNat cc.toNat = some other)
    (hinb : inBoundsI g rr cc) :
    walkClear g i dr dc (fuel + 1) rr cc =
      if other.id ≠ i then false
      else walkClear g i dr dc fuel (rr + dr) (cc + dc) := by
  rw [walkClear_succ, if_pos hinb, h]

lemma walkClear_succ_none {g : Grid} {i : Nat} {dr dc : Int} {fuel : Nat} {rr cc : Int}
    (h : getCell g rr.toNat cc.toNat = none) (hinb : inBoundsI g rr cc) :
    walkClear g i dr dc (fuel + 1) rr cc =
      walkClear g i dr dc fuel (rr + dr) (cc + dc) := by
  rw [walkClear_succ, if_pos hinb, h]

lemma oob_mono {g : Grid} {dr dc : Int} (hd : ∃ d : Dir, (dr, dc) = dirVec d)
    {r c : Nat} (hr : r < g.length) (hc : c < (g.getD 0 []).length) :
    ∀ m k : Nat, m ≤ k →
      ¬ inBoundsI g ((r : Int) + dr * m) ((c : Int) + dc * m) →
      ¬ inBoundsI g ((r : Int) + dr * k) ((c : Int) + dc * k) := by
  obtain ⟨d, hdv⟩ := hd
  intro m k hmk hoob hin
  apply hoob
  obtain ⟨a1, a2, a3, a4⟩ := hin
  cases d <;> simp only [dirVec] at hdv <;>
    (injection hdv with h1 h2; subst h1; subst h2) <;>
    refine ⟨by omega, by omega, by omega, by omega⟩

lemma oob_far {g : Grid} {dr dc : Int} (hd : ∃ d : Dir, (dr, dc) = dirVec d)
    {r c : Nat} (hr : r < g.length) (hc : c < (g.getD 0 []).length) :
    ¬ inBoundsI g
      ((r : Int) + dr * ((1 + (g.length + (g.getD 0 []).length) : Nat) : Int))
      ((c : Int) + dc * ((1 + (g.length + (g.getD 0 []).length) : Nat) : Int)) := by
  obtain ⟨d, hdv⟩ := hd
  intro hin
  obtain ⟨a1, a2, a3, a4⟩ := hin
  cases d <;> simp only [dirVec] at hdv <;>
    (injection hdv with h1 h2; subst h1; subst h2) <;> omega

lemma walk_imp_spec {g : Grid} {i : Nat} {dr dc : Int}
    (hd : ∃ d : Dir, (dr, dc) = dirVec d) {r c : Nat}
    (hr : r < g.length) (hc : c < (g.getD 0 []).length) :
    ∀ (fuel m : Nat), 1 ≤ m →
      ¬ inBoundsI g ((r : Int) + dr * ((m + fuel : Nat) : Int))
        ((c : Int) + dc * ((m + fuel : Nat) : Int)) →
      walkClear g i dr dc fuel ((r : Int) + dr * m) ((c : Int) + dc * m) = true →
      ∀ k : Nat, m ≤ k → inBoundsI g ((r : Int) + dr * k) ((c : Int) + dc * k) →
        (getCell g ((r : Int) + dr * k).toNat ((c : Int) + dc * k).toNat = none ∨
          ∃ q : Cell,
            getCell g ((r : Int) + dr * k).toNat ((c : Int) + dc * k).toNat = some q ∧
              q.id = i) := by
  intro fuel
  induction fuel with
  | zero =>
    intro m hm hfar hwalk k hk hin
    exact absurd hin (oob_mono hd hr hc m k hk (by simpa using hfar))
  | succ fuel ih =>
    intro m hm hfar hwalk k hk hin
    by_cases hbm : inBoundsI g ((r : Int) + dr * m) ((c : Int) + dc * m)
    · have e1 : ((r : Int) + dr * m) + dr = (r : Int) + dr * ((m + 1 : Nat) : Int) := by
        push_cast; ring
      have e2 : ((c : Int) + dc * m) + dc = (c : Int) + dc * ((m + 1 : Nat) : Int) := by
        push_cast; ring
      have efar : ¬ inBoundsI g ((r : Int) + dr * (((m + 1) + fuel : Nat) : Int))
          ((c : Int) + dc * (((m + 1) + fuel : Nat) : Int)) := by
        have e3 : (m + 1) + fuel = m + (fuel + 1) := by omega
        rw [e3]
        exact hfar
      cases hcell : getCell g ((r : Int) + dr * m).toNat ((c : Int) + dc * m).toNat with
      | some other =>
        rw [walkClear_succ_some hcell hbm] at hwalk
        by_cases hid : other.id ≠ i
        · rw [if_pos hid] at hwalk
          exact absurd hwalk (by simp)
        · rw [if_neg hid] at hwalk
          rw [e1, e2] at hwalk
          rcases Nat.eq_or_lt_of_le hk with heq | hlt
          · subst heq
            right
            exact ⟨other, hcell, by omega⟩
          · exact ih (m + 1) (by omega) efar hwalk k (by omega) hin
      | none =>
        rw [walkClear_succ_none hcell hbm] at hwalk
        rw [e1, e2] at hwalk
        rcases Nat.eq_or_lt_of_le hk with heq | hlt
        · subst heq
          left
          exact hcell
        · exact ih (m + 1) (by omega) efar hwalk k (by omega) hin
    · exact absurd hin (oob_mono hd hr hc m k hk hbm)

lemma spec_imp_walk {g : Grid} {i : Nat} {dr dc : Int} {r c : Nat} :
    ∀ (fuel m : Nat), 1 ≤ m →
      (∀ k : Nat, m ≤ k → inBoundsI g ((r : Int) + dr * k) ((c : Int) + dc * k) →
        (getCell g ((r : Int) + dr * k).toNat ((c : Int) + dc * k).toNat = none ∨
          ∃ q : Cell,
            getCell g ((r : Int) + dr * k).toNat ((c : Int) + dc * k).toNat = some q ∧
              q.id = i)) →
      walkClear g i dr dc fuel ((r : Int) + dr * m) ((c : Int) + dc * m) = true := by
  intro fuel
  induction fuel with
  | zero => intro m hm hspec; rfl
  | succ fuel ih =>
    intro m hm hspec
    by_cases hbm : inBoundsI g ((r : Int) + dr * m) ((c : Int) + dc * m)
    · have e1 : ((r : Int) + dr * m) + dr = (r : Int) + dr * ((m + 1 : Nat) : Int) := by
        push_cast; ring
      have e2 : ((c : Int) + dc * m) + dc = (c : Int) + dc * ((m + 1 : Nat) : Int) := by
        push_cast; ring
      have htail : ∀ k : Nat, m + 1 ≤ k →
          inBoundsI g ((r : Int) + dr * k) ((c : Int) + dc * k) →
          (getCell g ((r : Int) + dr * k).toNat ((c : Int) + dc * k).toNat = none ∨
            ∃ q : Cell,
              getCell g ((r : Int) + dr * k).toNat ((c : Int) + dc * k).toNat = some q ∧
                q.id = i) :=
        fun k hk hin => hspec k (by omega) hin
      rcases hspec m le_rfl hbm with hnone | ⟨q, hq, hqid⟩
      · rw [walkClear_succ_none hnone hbm, e1, e2]
        exact ih (m + 1) (by omega) htail
      · rw [walkClear_succ_some hq hbm, if_neg (by simp [hqid]), e1, e2]
        exact ih (m + 1) (by omega) htail
    · exact walkClear_succ_oob hbm

lemma canExit_iff_clearSpec (g : Grid) (r c : Nat) (p : Cell)
    (hcell : getCell g r c = some p) (hhead : p.head = true)
    (hr : r < g.length) (hc : c < (g.getD 0 []).length) :
    canExit g r c = true ↔ ClearSpec g p.id r c (dirVec p.dir).1 (dirVec p.dir).2 := by
  have hd : ∃ d : Dir, ((dirVec p.dir).1, (dirVec p.dir).2) = dirVec d := ⟨p.dir, rfl⟩
  have e1 : (r : Int) + (dirVec p.dir).1 =
      (r : Int) + (dirVec p.dir).1 * ((1 : Nat) : Int) := by push_cast; ring
  have e2 : (c : Int) + (dirVec p.dir).2 =
      (c : Int) + (dirVec p.dir).2 * ((1 : Nat) : Int) := by push_cast; ring
  rw [canExit_some hcell, hhead]
  simp only [Bool.true_and]
  constructor
  · intro hwalk
    intro k hk hin
    refine walk_imp_spec hd hr hc (g.length + (g.getD 0 []).length) 1 le_rfl
      (oob_far hd hr hc) ?_ k hk hin
    rw [← e1, ← e2]
    exact hwalk
  · intro hspec
    rw [e1, e2]
    exact spec_imp_walk (g.length + (g.getD 0 []).length) 1 le_rfl
      (fun k hk hin => hspec k hk hin)

end ExitLemmas

/-- C2 counterexample to the literal spec wording: in `sampleGap` the head
at the origin can exit although the cell on its path is empty, hence
neither off-grid nor of the same piece. -/
theorem canExit_strict_cex :
    canExit sampleGap 0 0 = true ∧
      ¬ ClearSpecStrict sampleGap 1 0 0 (dirVec Dir.R).1 (dirVec Dir.R).2 := by
  refine ⟨by decide, fun h => ?_⟩
  obtain ⟨q, hq, -⟩ := h 1 le_rfl (by decide)
  simp only [dirVec] at hq
  norm_num at hq
  rw [show getCell sampleGap 0 1 = (none : Option Cell) from rfl] at hq
  exact Option.noConfusion hq

/-- C2 (amended).  For an in-bounds head cell, `canExit` is true iff every
in-bounds cell strictly between the head and the board edge along the
piece's direction is empty or belongs to the same piece (the code treats
empty cells on the path as clear, which the claim's literal wording does
not allow). -/
theorem canExit_iff_clear (g : Grid) (r c : Nat) (p : Cell)
    (hcell : getCell g r c = some p) (hhead : p.head = true)
    (hr : r < g.length) (hc : c < (g.getD 0 []).length) :
    canExit g r c = true ↔ ClearSpec g p.id r c (dirVec p.dir).1 (dirVec p.dir).2 :=
  canExit_iff_clearSpec g r c p hcell hhead hr hc

/-- Witness for C2 at a concrete head cell with a clear path. -/
theorem canExit_iff_clear_witness :
    canExit sampleGap 0 0 = true ∧
      ClearSpec sampleGap 1 0 0 (dirVec Dir.R).1 (dirVec Dir.R).2 := by
  have h := canExit_iff_clear sampleGap 0 0 ⟨1, Dir.R, 1, true⟩ rfl rfl
    (by decide) (by decide)
  exact ⟨by decide, h.mp (by decide)⟩

/-- C7.  On an in-bounds cell that is empty or holds a non-head segment,
`canExit` returns false (and, being a total function, signals no error). -/
theorem canExit_nonhead (g : Grid) (r c : Nat) (hr : r < g.length)
    (hc : c < (g.getD r []).length)
    (h : getCell g r c = none ∨ ∃ p : Cell, getCell g r c = some p ∧ p.head = false) :
    canExit g r c = false := by
  rcases h with h | ⟨p, hp, hh⟩
  · exact canExit_none h
  · rw [canExit_some hp, hh]
    rfl

/-- Witness for C7 at a non-head cell and at an empty cell. -/
theorem canExit_nonhead_witness :
    canExit sampleBodyB 0 0 = false ∧ canExit sampleGap 0 1 = false :=
  ⟨canExit_nonhead sampleBodyB 0 0 (by decide) (by decide)
      (Or.inr ⟨⟨7, Dir.L, 2, false⟩, rfl, rfl⟩),
    canExit_nonhead sampleGap 0 1 (by decide) (by decide) (Or.inl rfl)⟩

section BlockedLemmas

lemma getD_ne_imp_lt {α : Type} :
    ∀ (l : List α) (n : Nat) (d : α), l.getD n d ≠ d → n < l.length := by
  intro l
  induction l with
  | nil => intro n d h; simp at h
  | cons x xs ih =>
    intro n d h
    cases n with
    | zero => simp
    | succ n =>
      have := ih n d (by simpa using h)
      simp
      omega

lemma allEmpty_false_of_getCell {g : Grid} {r c : Nat} {p : Cell}
    (h : getCell g r c = some p) : allEmpty g = false := by
  cases hb : allEmpty g with
  | false => rfl
  | true =>
    obtain ⟨row, hrow, hcell⟩ := getCell_mem h
    have := (allEmpty_iff.mp hb) row hrow _ hcell
    exact absurd this (by simp)

end BlockedLemmas

/-- C8.  Mutual blocking: on any grid whose only occupied cells are a
length-1 piece at `(0, 0)` pointing right and a different length-1 piece at
`(0, 1)` pointing left, neither head can exit and the solver with the
normal cap 20000 reports not-found. -/
theorem two_blockers (g : Grid) (i1 i2 : Nat) (hne : i1 ≠ i2)
    (h00 : getCell g 0 0 = some ⟨i1, Dir.R, 1, true⟩)
    (h01 : getCell g 0 1 = some ⟨i2, Dir.L, 1, true⟩)
    (hother : ∀ r c : Nat, ¬ (r = 0 ∧ c < 2) → getCell g r c = none) :
    canExit g 0 0 = false ∧ canExit g 0 1 = false ∧
      findSolutionLimited g 20000 = none := by
  have hW : 1 < (g.getD 0 []).length := by
    refine getD_ne_imp_lt _ 1 none ?_
    rw [show (g.getD 0 []).getD 1 none = getCell g 0 1 from rfl, h01]
    simp
  have hH : 0 < g.length := by
    refine getD_ne_imp_lt g 0 [] ?_
    intro he
    rw [he] at hW
    simp at hW
  have hce0 : canExit g 0 0 = false := by
    cases hce : canExit g 0 0 with
    | false => rfl
    | true =>
      exfalso
      have hspec := (canExit_iff_clearSpec g 0 0 ⟨i1, Dir.R, 1, true⟩ h00 rfl hH
        (by omega)).mp hce
      have h1 := hspec 1 le_rfl (by simp only [dirVec]; omega)
      simp only [dirVec] at h1
      norm_num at h1
      rw [h01] at h1
      rcases h1 with h1 | ⟨q, hq, hqid⟩
      · exact Option.noConfusion h1
      · injection hq with hq'
        rw [← hq'] at hqid
        simp at hqid
        exact hne hqid.symm
  have hce1 : canExit g 0 1 = false := by
    cases hce : canExit g 0 1 with
    | false => rfl
    | true =>
      exfalso
      have hspec := (canExit_iff_clearSpec g 0 1 ⟨i2, Dir.L, 1, true⟩ h01 rfl hH
        (by omega)).mp hce
      have h1 := hspec 1 le_rfl (by simp only [dirVec]; omega)
      simp only [dirVec] at h1
      norm_num at h1
      rw [h00] at h1
      rcases h1 with h1 | ⟨q, hq, hqid⟩
      · exact Option.noConfusion h1
      · injection hq with hq'
        rw [← hq'] at hqid
        simp at hqid
        exact hne hqid
  have hnemp : allEmpty g = false := allEmpty_false_of_getCell h00
  have hmoves : findMoves g = [] := by
    unfold findMoves
    rw [List.filter_eq_nil_iff]
    rintro ⟨r, c⟩ hmem
    by_cases h0 : r = 0 ∧ c < 2
    · obtain ⟨rfl, hc2⟩ := h0
      interval_cases c
      · simp [h00, hce0]
      · simp [h01, hce1]
    · simp [hother r c h0]
  have hsol : findSolutionLimited g 20000 = none := by
    unfold findSolutionLimited
    rw [bfsAux_cons]
    rw [if_neg (show ¬ (0 + 1 > 20000) by omega)]
    rw [if_neg (show ¬ (allEmpty (⟨g, []⟩ : Node).grid = true) from by
      rw [show (⟨g, []⟩ : Node).grid = g from rfl, hnemp]; simp)]
    rw [show (⟨g, []⟩ : Node).grid = g from rfl, show (⟨g, []⟩ : Node).seq =
      ([] : List (Nat × Nat)) from rfl, hmoves]
    simp [expand, bfsAux_nil]
  exact ⟨hce0, hce1, hsol⟩

/-- Witness for C8 at the concrete 1×2 mutual-blocking grid. -/
theorem two_blockers_witness :
    canExit sampleBlocked 0 0 = false ∧ canExit sampleBlocked 0 1 = false ∧
      findSolutionLimited sampleBlocked 20000 = none := by
  refine two_blockers sampleBlocked 1 2 (by decide) rfl rfl ?_
  intro r c h
  push_neg at h
  cases r with
  | zero =>
    have hc2 : 2 ≤ c := h rfl
    show getCell sampleBlocked 0 c = none
    unfold getCell
    rw [List.getD_eq_default]
    rw [show sampleBlocked.getD 0 [] = sampleBlocked.head (by simp [sampleBlocked]) from rfl]
    · simp [sampleBlocked]
      omega
  | succ r' =>
    show getCell sampleBlocked (r' + 1) c = none
    unfold getCell
    rw [show sampleBlocked.getD (r' + 1) [] = ([] : List (Option Cell)) from
      List.getD_eq_default _ _ (by simp [sampleBlocked])]
    rfl

section KeyLemmas

lemma digitChar_range {d : Nat} (h : d < 10) :
    48 ≤ (Nat.digitChar d).toNat ∧ (Nat.digitChar d).toNat ≤ 57 := by
  interval_cases d <;> decide

lemma natStrAux_chars :
    ∀ (fuel n : Nat), ∀ ch ∈ natStrAux fuel n, 48 ≤ ch.toNat ∧ ch.toNat ≤ 57 := by
  intro fuel
  induction fuel with
  | zero => intro n ch h; simp [natStrAux] at h
  | succ fuel ih =>
    intro n ch h
    simp only [natStrAux] at h
    split_ifs at h with h10
    · rw [List.mem_singleton] at h
      subst h
      exact digitChar_range h10
    · rw [List.mem_append] at h
      rcases h with h | h
      · exact ih _ ch h
      · rw [List.mem_singleton] at h
        subst h
        exact digitChar_range (Nat.mod_lt n (by omega))

lemma strVal_append_digit (l : List Char) (ch : Char) :
    strVal (l ++ [ch]) = strVal l * 10 + (ch.toNat - 48) := by
  unfold strVal
  rw [List.foldl_append]
  rfl

lemma charVal_digitChar {d : Nat} (h : d < 10) : (Nat.digitChar d).toNat - 48 = d := by
  interval_cases d <;> decide

lemma natStrAux_val : ∀ (fuel n : Nat), n < fuel → strVal (natStrAux fuel n) = n := by
  intro fuel
  induction fuel with
  | zero => intro n h; omega
  | succ fuel ih =>
    intro n h
    simp only [natStrAux]
    split_ifs with h10
    · show strVal [Nat.digitChar n] = n
      have := charVal_digitChar h10
      unfold strVal
      simpa using this
    · rw [strVal_append_digit]
      have hlt : n / 10 < fuel := by
        have h1 : n / 10 < n := Nat.div_lt_self (by omega) (by omega)
        omega
      rw [ih (n / 10) hlt, charVal_digitChar (Nat.mod_lt n (by omega))]
      omega

lemma natStr_inj : Function.Injective natStr := by
  intro m n h
  have hm := natStrAux_val (m + 1) m (by omega)
  have hn := natStrAux_val (n + 1) n (by omega)
  rw [show natStrAux (m + 1) m = natStr m from rfl] at hm
  rw [show natStrAux (n + 1) n = natStr n from rfl] at hn
  rw [h] at hm
  omega

lemma natStr_ne_sep {n : Nat} {ch : Char} (h : ch ∈ natStr n) : ch ≠ ',' ∧ ch ≠ ';' := by
  obtain ⟨h1, h2⟩ := natStrAux_chars (n + 1) n ch h
  refine ⟨fun he => ?_, fun he => ?_⟩
  · rw [he] at h1
    exact absurd h1 (by decide)
  · rw [he] at h2
    exact absurd h2 (by decide)

lemma append_sep_inj {sep : Char} :
    ∀ (x y u v : List Char), sep ∉ x → sep ∉ y →
      x ++ sep :: u = y ++ sep :: v → x = y ∧ u = v := by
  intro x
  induction x with
  | nil =>
    intro y u v hx hy h
    cases y with
    | nil => simpa using h
    | cons b y' =>
      exfalso
      simp only [List.nil_append, List.cons_append, List.cons.injEq] at h
      obtain ⟨hb, -⟩ := h
      exact hy (by rw [hb]; exact List.mem_cons_self _ _)
  | cons a x' ih =>
    intro y u v hx hy h
    cases y with
    | nil =>
      exfalso
      simp only [List.cons_append, List.nil_append, List.cons.injEq] at h
      obtain ⟨ha, -⟩ := h
      exact hx (by rw [← ha]; exact List.mem_cons_self _ _)
    | cons b y' =>
      simp only [List.cons_append, List.cons.injEq] at h
      obtain ⟨hab, hrest⟩ := h
      obtain ⟨h1, h2⟩ := ih y' u v (fun hm => hx (List.mem_cons_of_mem _ hm))
        (fun hm => hy (List.mem_cons_of_mem _ hm)) hrest
      exact ⟨by rw [hab, h1], h2⟩

lemma joinSep_inj {sep : Char} :
    ∀ (as bs : List (List Char)), as.length = bs.length →
      (∀ x ∈ as, sep ∉ x) → (∀ x ∈ bs, sep ∉ x) →
      joinSep sep as = joinSep sep bs → as = bs := by
  intro as
  induction as with
  | nil =>
    intro bs hlen _ _ _
    cases bs with
    | nil => rfl
    | cons y bs' => simp at hlen
  | cons x as' ih =>
    intro bs hlen hsa hsb hj
    cases bs with
    | nil => simp at hlen
    | cons y bs' =>
      cases as' with
      | nil =>
        cases bs' with
        | nil =>
          have : x = y := hj
          rw [this]
        | cons y2 bs'' => simp at hlen
      | cons x2 as'' =>
        cases bs' with
        | nil => simp at hlen
        | cons y2 bs'' =>
          rw [show joinSep sep (x :: x2 :: as'') = x ++ sep :: joinSep sep (x2 :: as'')
              from rfl,
            show joinSep sep (y :: y2 :: bs'') = y ++ sep :: joinSep sep (y2 :: bs'')
              from rfl] at hj
          obtain ⟨hxy, hrest⟩ := append_sep_inj x y _ _ (hsa x (List.mem_cons_self _ _))
            (hsb y (List.mem_cons_self _ _)) hj
          have htail := ih (y2 :: bs'') (by simpa using hlen)
            (fun z hz => hsa z (List.mem_cons_of_mem _ hz))
            (fun z hz => hsb z (List.mem_cons_of_mem _ hz)) hrest
          rw [hxy, htail]

lemma mem_joinSep {sep : Char} :
    ∀ (l : List (List Char)) (ch : Char), ch ∈ joinSep sep l →
      ch = sep ∨ ∃ x ∈ l, ch ∈ x := by
  intro l
  induction l with
  | nil => intro ch h; simp [joinSep] at h
  | cons x l' ih =>
    intro ch h
    cases l' with
    | nil => exact Or.inr ⟨x, List.mem_cons_self _ _, h⟩
    | cons y l'' =>
      rw [show joinSep sep (x :: y :: l'') = x ++ sep :: joinSep sep (y :: l'')
          from rfl] at h
      rw [List.mem_append] at h
      rcases h with h | h
      · exact Or.inr ⟨x, List.mem_cons_self _ _, h⟩
      · rw [List.mem_cons] at h
        rcases h with rfl | h
        · exact Or.inl rfl
        · rcases ih ch h with h | ⟨z, hz, hcz⟩
          · exact Or.inl h
          · exact Or.inr ⟨z, List.mem_cons_of_mem _ hz, hcz⟩

lemma rowStr_no_semi {row : List (Option Cell)} {ch : Char}
    (h : ch ∈ joinSep ',' (row.map fun c => natStr (cellId c))) : ch ≠ ';' := by
  rcases mem_joinSep _ ch h with rfl | ⟨x, hx, hcx⟩
  · decide
  · rw [List.mem_map] at hx
    obtain ⟨c, -, rfl⟩ := hx
    exact (natStr_ne_sep hcx).2

lemma idRows_eq :
    ∀ (g1 g2 : Grid), g1.map List.length = g2.map List.length →
      g1.map (fun row => joinSep ',' (row.map fun c => natStr (cellId c))) =
        g2.map (fun row => joinSep ',' (row.map fun c => natStr (cellId c))) →
      g1.map (fun row => row.map cellId) = g2.map (fun row => row.map cellId) := by
  intro g1
  induction g1 with
  | nil =>
    intro g2 hd _
    cases g2 with
    | nil => rfl
    | cons r2 g2' => simp at hd
  | cons r1 g1' ih =>
    intro g2 hd hs
    cases g2 with
    | nil => simp at hd
    | cons r2 g2' =>
      simp only [List.map_cons, List.cons.injEq] at hd hs ⊢
      obtain ⟨hd1, hd2⟩ := hd
      obtain ⟨hs1, hs2⟩ := hs
      refine ⟨?_, ih g2' hd2 hs2⟩
      have hcells : r1.map (fun c => natStr (cellId c)) =
          r2.map (fun c => natStr (cellId c)) := by
        refine joinSep_inj _ _ (by simp [hd1]) ?_ ?_ hs1
        · intro x hx
          rw [List.mem_map] at hx
          obtain ⟨c, -, rfl⟩ := hx
          exact fun hm => (natStr_ne_sep hm).1 rfl
        · intro x hx
          rw [List.mem_map] at hx
          obtain ⟨c, -, rfl⟩ := hx
          exact fun hm => (natStr_ne_sep hm).1 rfl
      have hmm : (r1.map cellId).map natStr = (r2.map cellId).map natStr := by
        simpa [List.map_map] using hcells
      exact List.map_injective_iff.mpr natStr_inj hmm

lemma serialize_factor (g : Grid) :
    g.map (fun row => joinSep ',' (row.map fun c => natStr (cellId c))) =
      (g.map fun row => row.map cellId).map fun ids => joinSep ',' (ids.map natStr) := by
  rw [List.map_map]
  apply List.map_congr_left
  intro row _
  rw [Function.comp_apply, List.map_map]
  rfl

end KeyLemmas

/-- C6.  The canonical key is a function of the per-cell piece ids alone:
for grids of equal dimensions the serialized keys agree exactly when every
cell carries the same piece id (0 for empty); direction, length and head
flag never influence the key. -/
theorem serializeGrid_key_iff (g1 g2 : Grid)
    (hdim : g1.map List.length = g2.map List.length) :
    serializeGrid g1 = serializeGrid g2 ↔
      g1.map (fun row => row.map cellId) = g2.map (fun row => row.map cellId) := by
  constructor
  · intro h
    unfold serializeGrid at h
    have hdata : joinSep ';'
        (g1.map fun row => joinSep ',' (row.map fun c => natStr (cellId c))) =
        joinSep ';' (g2.map fun row => joinSep ',' (row.map fun c => natStr (cellId c))) := by
      injection h
    have hlen1 : g1.length = g2.length := by
      have hx := congrArg List.length hdim
      simpa using hx
    have hrows := joinSep_inj _ _ (by simp [hlen1]) ?_ ?_ hdata
    · exact idRows_eq g1 g2 hdim hrows
    · intro x hx
      rw [List.mem_map] at hx
      obtain ⟨row, -, rfl⟩ := hx
      exact fun hm => rowStr_no_semi hm rfl
    · intro x hx
      rw [List.mem_map] at hx
      obtain ⟨row, -, rfl⟩ := hx
      exact fun hm => rowStr_no_semi hm rfl
  · intro h
    unfold serializeGrid
    rw [serialize_factor g1, serialize_factor g2, h]

/-- Witness for C6: equal ids with different direction, length and head
flag give equal keys. -/
theorem serializeGrid_key_iff_witness :
    (sampleHeadA.map List.length = sampleBodyB.map List.length) ∧
      (serializeGrid sampleHeadA = serializeGrid sampleBodyB ↔
        sampleHeadA.map (fun row => row.map cellId) =
          sampleBodyB.map (fun row => row.map cellId)) :=
  ⟨by decide, serializeGrid_key_iff sampleHeadA sampleBodyB (by decide)⟩

section CellAccessLemmas

lemma getD_replicate {α : Type} :
    ∀ (n i : Nat) (x d : α), (List.replicate n x).getD i d = if i < n then x else d := by
  intro n
  induction n with
  | zero => intro i x d; simp
  | succ n ih =>
    intro i x d
    cases i with
    | zero => simp
    | succ i =>
      rw [List.replicate_succ]
      have := ih i x d
      simp only [List.getD_cons_succ, this]
      by_cases h : i < n
      · rw [if_pos h, if_pos (by omega)]
      · rw [if_neg h, if_neg (by omega)]

lemma getD_set_self {α : Type} :
    ∀ (l : List α) (n : Nat) (v d : α),
      (l.set n v).getD n d = if n < l.length then v else d := by
  intro l
  induction l with
  | nil => intro n v d; simp
  | cons x xs ih =>
    intro n v d
    cases n with
    | zero => simp
    | succ n =>
      rw [List.set_cons_succ, List.getD_cons_succ, ih]
      simp only [List.length_cons]
      by_cases h : n < xs.length
      · rw [if_pos h, if_pos (by omega)]
      · rw [if_neg h, if_neg (by omega)]

lemma getD_set_ne {α : Type} :
    ∀ (l : List α) (n m : Nat) (v d : α), n ≠ m →
      (l.set n v).getD m d = l.getD m d := by
  intro l
  induction l with
  | nil => intro n m v d _; simp
  | cons x xs ih =>
    intro n m v d h
    cases n with
    | zero =>
      cases m with
      | zero => exact absurd rfl h
      | succ m => simp
    | succ n =>
      cases m with
      | zero => simp
      | succ m =>
        rw [List.set_cons_succ, List.getD_cons_succ, List.getD_cons_succ]
        exact ih n m v d (by omega)

lemma length_setCell (g : Grid) (r c : Nat) (v : Option Cell) :
    (setCell g r c v).length = g.length := by
  unfold setCell
  exact List.length_set g r _

lemma rowLen_setCell (g : Grid) (r c r2 : Nat) (v : Option Cell) :
    ((setCell g r c v).getD r2 []).length = (g.getD r2 []).length := by
  unfold setCell
  by_cases h : r = r2
  · subst h
    by_cases hr : r < g.length
    · rw [getD_set_self, if_pos hr, List.length_set]
    · rw [getD_set_self, if_neg hr]
      rw [List.getD_eq_default _ _ (by omega)]
  · rw [getD_set_ne _ _ _ _ _ h]

lemma getCell_setCell_self (g : Grid) (r c : Nat) (v : Option Cell)
    (hr : r < g.length) (hc : c < (g.getD r []).length) :
    getCell (setCell g r c v) r c = v := by
  unfold getCell setCell
  rw [getD_set_self, if_pos hr, getD_set_self, if_pos hc]

lemma getCell_setCell_ne (g : Grid) (r c r2 c2 : Nat) (v : Option Cell)
    (h : ¬ (r2 = r ∧ c2 = c)) :
    getCell (setCell g r c v) r2 c2 = getCell g r2 c2 := by
  unfold getCell setCell
  by_cases hr : r2 = r
  · subst hr
    have hc : c2 ≠ c := fun hc => h ⟨rfl, hc⟩
    by_cases hb : r2 < g.length
    · rw [getD_set_self, if_pos hb, getD_set_ne _ _ _ _ _ (fun he => hc he.symm)]
    · rw [getD_set_self, if_neg hb,
        show g.getD r2 [] = ([] : List (Option Cell)) from
          List.getD_eq_default _ _ (by omega)]
  · rw [getD_set_ne _ _ _ _ _ (fun he => hr he.symm)]

lemma getCell_emptyGrid (rows cols r c : Nat) :
    getCell (emptyGrid rows cols) r c = none := by
  unfold getCell emptyGrid
  rw [getD_replicate]
  by_cases h : r < rows
  · rw [if_pos h, getD_replicate]
    by_cases h2 : c < cols
    · rw [if_pos h2]
    · rw [if_neg h2]
  · rw [if_neg h]
    rfl

lemma emptyGrid_length (rows cols : Nat) : (emptyGrid rows cols).length = rows := by
  unfold emptyGrid
  exact List.length_replicate rows _

lemma emptyGrid_rowLen (rows cols r : Nat) (h : r < rows) :
    ((emptyGrid rows cols).getD r []).length = cols := by
  unfold emptyGrid
  rw [getD_replicate, if_pos h, List.length_replicate]

end CellAccessLemmas

section FallbackLemmas

lemma tryPlace_noplace (rows cols : Nat) (ch : GenChoice) (h : ch.place = false)
    (st : Grid × Nat) (rc : Nat × Nat) : tryPlace rows cols ch st rc = st := by
  unfold tryPlace
  rw [h]
  simp

lemma buildCandidate_noplace (rows cols : Nat) (ch : Nat → Nat → GenChoice)
    (h : ∀ r c, (ch r c).place = false) (ctr : Nat) :
    buildCandidate rows cols ch ctr = (emptyGrid rows cols, ctr) := by
  unfold buildCandidate
  generalize (emptyGrid rows cols, ctr) = st
  induction rowMajor rows cols generalizing st with
  | nil => rfl
  | cons rc l ih =>
    rw [List.foldl_cons, tryPlace_noplace rows cols _ (h rc.1 rc.2) st rc]
    exact ih st

lemma genLoop_fallback (rows cols : Nat) (ch : Nat → Nat → Nat → GenChoice) :
    ∀ (rem a ctr : Nat),
      (∀ a2 ctr2 : Nat, a ≤ a2 → a2 < a + rem →
        accepted (buildCandidate rows cols (ch a2) ctr2).1 = false) →
      genLoop rows cols ch rem a ctr = fallbackGrid rows cols := by
  intro rem
  induction rem with
  | zero => intro a ctr _; rfl
  | succ rem ih =>
    intro a ctr h
    simp only [genLoop]
    rw [h a ctr le_rfl (by omega)]
    simp only [Bool.false_eq_true, if_false]
    exact ih (a + 1) _ (fun a2 ctr2 h1 h2 => h a2 ctr2 (by omega) (by omega))

lemma fallbackGrid_cells (rows cols : Nat) (h1 : 1 ≤ rows) (h2 : 2 ≤ cols) :
    getCell (fallbackGrid rows cols) 0 0 = some ⟨1, Dir.R, 1, true⟩ ∧
      getCell (fallbackGrid rows cols) 0 1 = some ⟨1, Dir.R, 1, false⟩ ∧
      ∀ r c : Nat, ¬ (r = 0 ∧ c < 2) → getCell (fallbackGrid rows cols) r c = none := by
  unfold fallbackGrid
  rw [if_pos ⟨h1, h2⟩, if_pos (by omega : 1 < cols)]
  have hrl : 0 < (emptyGrid rows cols).length := by rw [emptyGrid_length]; omega
  have hrw : ∀ c2 : Nat, c2 < 2 → c2 < ((emptyGrid rows cols).getD 0 []).length := by
    intro c2 hc2
    rw [emptyGrid_rowLen rows cols 0 (by omega)]
    omega
  have hl1 : 0 < (setCell (emptyGrid rows cols) 0 0 (some ⟨1, Dir.R, 1, true⟩)).length := by
    rw [length_setCell]
    exact hrl
  have hw1 : 1 < ((setCell (emptyGrid rows cols) 0 0
      (some ⟨1, Dir.R, 1, true⟩)).getD 0 []).length := by
    rw [rowLen_setCell, emptyGrid_rowLen rows cols 0 (by omega)]
    omega
  refine ⟨?_, ?_, ?_⟩
  · rw [getCell_setCell_ne _ _ _ _ _ _ (by omega)]
    exact getCell_setCell_self _ _ _ _ hrl (hrw 0 (by omega))
  · exact getCell_setCell_self _ _ _ _ hl1 hw1
  · intro r c hrc
    rw [getCell_setCell_ne _ _ _ _ _ _ (by omega), getCell_setCell_ne _ _ _ _ _ _ (by omega)]
    exact getCell_emptyGrid rows cols r c

lemma fallbackGrid_thin (rows cols : Nat) (h : cols ≤ 1) :
    fallbackGrid rows cols = emptyGrid rows cols := by
  unfold fallbackGrid
  rw [if_neg (by omega)]

end FallbackLemmas

/-- C5 counterexample: with one failing attempt and a single column, the
fallback is the all-empty grid, not a lone single-cell piece. -/
theorem generate_fallback_cex :
    generateRandomLevelAsync 2 1 1 chNone = [[none], [none]] ∧
      hasArrow (generateRandomLevelAsync 2 1 1 chNone) = false :=
  ⟨by decide, by decide⟩

/-- C5 (amended).  When every candidate construction fails, `generate`
returns the deterministic fallback: for at least 1 row and 2 columns a
single 1×2 horizontal piece (direction `R`, recorded length 1, head at
column 0) at the top-left and nothing else; with at most one column the
fallback is the all-empty grid (the source places no piece at all). -/
theorem generate_fallback (rows cols n : Nat) (ch : Nat → Nat → Nat → GenChoice)
    (h : ∀ a ctr : Nat, a < n → accepted (buildCandidate rows cols (ch a) ctr).1 = false) :
    generateRandomLevelAsync rows cols n ch = fallbackGrid rows cols ∧
      (1 ≤ rows → 2 ≤ cols →
        getCell (fallbackGrid rows cols) 0 0 = some ⟨1, Dir.R, 1, true⟩ ∧
          getCell (fallbackGrid rows cols) 0 1 = some ⟨1, Dir.R, 1, false⟩ ∧
          ∀ r c : Nat, ¬ (r = 0 ∧ c < 2) →
            getCell (fallbackGrid rows cols) r c = none) ∧
      (cols ≤ 1 → fallbackGrid rows cols = emptyGrid rows cols) := by
  refine ⟨?_, fun h1 h2 => fallbackGrid_cells rows cols h1 h2, fallbackGrid_thin rows cols⟩
  unfold generateRandomLevelAsync
  exact genLoop_fallback rows cols ch n 0 1 (fun a2 ctr2 _ hlt => h a2 ctr2 (by omega))

/-- Witness for C5 at a 2×2 grid with one always-failing attempt. -/
theorem generate_fallback_witness :
    generateRandomLevelAsync 2 2 1 chNone = fallbackGrid 2 2 ∧
      getCell (fallbackGrid 2 2) 0 0 = some ⟨1, Dir.R, 1, true⟩ ∧
      getCell (fallbackGrid 2 2) 0 1 = some ⟨1, Dir.R, 1, false⟩ := by
  have hyp : ∀ a ctr : Nat, a < 1 →
      accepted (buildCandidate 2 2 (chNone a) ctr).1 = false := by
    intro a ctr _
    rw [buildCandidate_noplace 2 2 (chNone a) (fun _ _ => rfl) ctr]
    show accepted (emptyGrid 2 2) = false
    decide
  obtain ⟨h1, h2, -⟩ := generate_fallback 2 2 1 chNone hyp
  obtain ⟨a, b, -⟩ := h2 (by decide) (by decide)
  exact ⟨h1, a, b⟩

section InvLemmas

lemma get_getD {α : Type} :
    ∀ (l : List α) (n : Nat) (d : α) (h : n < l.length), l.getD n d = l.get ⟨n, h⟩ := by
  intro l
  induction l with
  | nil => intro n d h; simp at h
  | cons x xs ih =>
    intro n d h
    cases n with
    | zero => rfl
    | succ n => exact ih n d (by simpa using h)

lemma getCell_of_mem {g : Grid} {row : List (Option Cell)} {cell : Option Cell}
    (hrow : row ∈ g) (hcell : cell ∈ row) : ∃ r c : Nat, getCell g r c = cell := by
  obtain ⟨⟨r, hr⟩, hgr⟩ := List.mem_iff_get.mp hrow
  obtain ⟨⟨c, hc⟩, hgc⟩ := List.mem_iff_get.mp hcell
  refine ⟨r, c, ?_⟩
  unfold getCell
  rw [get_getD g r [] hr, hgr, get_getD row c none hc, hgc]

lemma mem_rowMajor {rows cols : Nat} {rc : Nat × Nat} :
    rc ∈ rowMajor rows cols ↔ rc.1 < rows ∧ rc.2 < cols := by
  obtain ⟨r, c⟩ := rc
  unfold rowMajor
  rw [List.mem_flatMap]
  constructor
  · rintro ⟨a, ha, hm⟩
    rw [List.mem_map] at hm
    obtain ⟨b, hb, he⟩ := hm
    rw [List.mem_range] at ha hb
    injection he with e1 e2
    subst e1
    subst e2
    exact ⟨ha, hb⟩
  · rintro ⟨h1, h2⟩
    exact ⟨r, List.mem_range.mpr h1, List.mem_map.mpr ⟨c, List.mem_range.mpr h2, rfl⟩⟩

lemma checkInv_iff {g : Grid} :
    checkInv g = true ↔
      ∀ rc ∈ rowMajor g.length (g.getD 0 []).length, headOk g rc = true := by
  unfold checkInv
  rw [List.all_eq_true]

lemma checkInvNoLen_iff {g : Grid} :
    checkInvNoLen g = true ↔
      ∀ rc ∈ rowMajor g.length (g.getD 0 []).length, headOkNoLen g rc = true := by
  unfold checkInvNoLen
  rw [List.all_eq_true]

lemma headOk_some {g : Grid} {rc : Nat × Nat} {q : Cell}
    (h : getCell g rc.1 rc.2 = some q) :
    headOk g rc =
      (decide (countHead g q.id = 1) &&
        (!q.head || (runOk g rc.1 rc.2 q && decide (countId g q.id = q.len)))) := by
  unfold headOk
  rw [h]

lemma headOk_none {g : Grid} {rc : Nat × Nat} (h : getCell g rc.1 rc.2 = none) :
    headOk g rc = true := by
  unfold headOk
  rw [h]

lemma headOkNoLen_some {g : Grid} {rc : Nat × Nat} {q : Cell}
    (h : getCell g rc.1 rc.2 = some q) :
    headOkNoLen g rc =
      (decide (countHead g q.id = 1) && (!q.head || runOk g rc.1 rc.2 q)) := by
  unfold headOkNoLen
  rw [h]

lemma headOkNoLen_none {g : Grid} {rc : Nat × Nat} (h : getCell g rc.1 rc.2 = none) :
    headOkNoLen g rc = true := by
  unfold headOkNoLen
  rw [h]

lemma countP_set (p : Option Cell → Bool) :
    ∀ (row : List (Option Cell)) (c : Nat) (v : Option Cell),
      c < row.length → p (row.getD c none) = false →
      (row.set c v).countP p = row.countP p + (if p v then 1 else 0) := by
  intro row
  induction row with
  | nil => intro c v h; simp at h
  | cons x xs ih =>
    intro c v h hold
    cases c with
    | zero =>
      rw [List.set_cons_zero, List.countP_cons, List.countP_cons]
      have : p x = false := hold
      rw [this]
      simp
    | succ c =>
      rw [List.set_cons_succ, List.countP_cons, List.countP_cons,
        ih c v (by simpa using h) hold]
      omega

lemma sum_set :
    ∀ (l : List Nat) (n : Nat) (x : Nat), n < l.length →
      (l.set n x).sum + l.getD n 0 = l.sum + x := by
  intro l
  induction l with
  | nil => intro n x h; simp at h
  | cons y ys ih =>
    intro n x h
    cases n with
    | zero => simp [List.set_cons_zero]; omega
    | succ n =>
      rw [List.set_cons_succ, List.sum_cons, List.sum_cons, List.getD_cons_succ]
      have := ih n x (by simpa using h)
      omega

lemma map_getD {α β : Type} (f : α → β) :
    ∀ (l : List α) (n : Nat) (d1 : α) (d2 : β), n < l.length →
      (l.map f).getD n d2 = f (l.getD n d1) := by
  intro l
  induction l with
  | nil => intro n d1 d2 h; simp at h
  | cons x xs ih =>
    intro n d1 d2 h
    cases n with
    | zero => rfl
    | succ n => exact ih n d1 d2 (by simpa using h)

lemma countPG_setCell (p : Option Cell → Bool) (g : Grid) (r c : Nat) (v : Option Cell)
    (hr : r < g.length) (hc : c < (g.getD r []).length)
    (hold : p (getCell g r c) = false) :
    countPG p (setCell g r c v) = countPG p g + (if p v then 1 else 0) := by
  unfold countPG setCell
  rw [List.map_set]
  have hs := sum_set (g.map fun row => row.countP p) r
    (((g.getD r []).set c v).countP p) (by simpa using hr)
  have ho : (g.map fun row => row.countP p).getD r 0 = (g.getD r []).countP p :=
    map_getD _ g r [] 0 hr
  have hrow := countP_set p (g.getD r []) c v hc hold
  omega

lemma countPG_zero (p : Option Cell → Bool) (g : Grid)
    (h : ∀ (r c : Nat) (cell : Option Cell), getCell g r c = cell → p cell = false) :
    countPG p g = 0 := by
  unfold countPG
  rw [List.sum_eq_zero_iff]
  intro x hx
  rw [List.mem_map] at hx
  obtain ⟨row, hrow, rfl⟩ := hx
  rw [List.countP_eq_zero]
  intro cell hcell
  obtain ⟨r, c, hrc⟩ := getCell_of_mem hrow hcell
  rw [h r c cell hrc]
  simp

lemma writeFold_length (pr pc : Nat → Nat) (v : Nat → Option Cell) :
    ∀ (ks : List Nat) (g : Grid),
      (ks.foldl (fun h k => setCell h (pr k) (pc k) (v k)) g).length = g.length := by
  intro ks
  induction ks with
  | nil => intro g; rfl
  | cons k ks ih =>
    intro g
    rw [List.foldl_cons, ih, length_setCell]

lemma writeFold_rowLen (pr pc : Nat → Nat) (v : Nat → Option Cell) :
    ∀ (ks : List Nat) (g : Grid) (r2 : Nat),
      ((ks.foldl (fun h k => setCell h (pr k) (pc k) (v k)) g).getD r2 []).length =
        ((g.getD r2 []).length) := by
  intro ks
  induction ks with
  | nil => intro g r2; rfl
  | cons k ks ih =>
    intro g r2
    rw [List.foldl_cons, ih, rowLen_setCell]

lemma writeFold_get_old (pr pc : Nat → Nat) (v : Nat → Option Cell) :
    ∀ (ks : List Nat) (g : Grid) (r2 c2 : Nat),
      (∀ k ∈ ks, ¬ (pr k = r2 ∧ pc k = c2)) →
      getCell (ks.foldl (fun h k => setCell h (pr k) (pc k) (v k)) g) r2 c2 =
        getCell g r2 c2 := by
  intro ks
  induction ks with
  | nil => intro g r2 c2 _; rfl
  | cons k ks ih =>
    intro g r2 c2 h
    rw [List.foldl_cons, ih _ _ _ (fun k2 hk2 => h k2 (List.mem_cons_of_mem _ hk2)),
      getCell_setCell_ne]
    intro hrc
    exact h k (List.mem_cons_self _ _) ⟨hrc.1.symm, hrc.2.symm⟩

lemma writeFold_get_new (pr pc : Nat → Nat) (v : Nat → Option Cell) :
    ∀ (ks : List Nat) (g : Grid),
      List.Pairwise (fun k1 k2 => ¬ (pr k1 = pr k2 ∧ pc k1 = pc k2)) ks →
      (∀ k ∈ ks, pr k < g.length ∧ pc k < (g.getD (pr k) []).length) →
      ∀ k0 ∈ ks,
        getCell (ks.foldl (fun h k => setCell h (pr k) (pc k) (v k)) g) (pr k0) (pc k0) =
          v k0 := by
  intro ks
  induction ks with
  | nil => intro g _ _ k0 hk0; simp at hk0
  | cons k ks ih =>
    intro g hpw hbd k0 hk0
    rw [List.pairwise_cons] at hpw
    rw [List.mem_cons] at hk0
    rw [List.foldl_cons]
    rcases hk0 with rfl | hk0
    · rw [writeFold_get_old pr pc v ks _ _ _ ?_]
      · exact getCell_setCell_self _ _ _ _ (hbd k0 (List.mem_cons_self _ _)).1
          (hbd k0 (List.mem_cons_self _ _)).2
      · intro k2 hk2 hcontra
        exact hpw.1 k2 hk2 ⟨hcontra.1.symm, hcontra.2.symm⟩
    · refine ih _ hpw.2 ?_ k0 hk0
      intro k2 hk2
      rw [length_setCell, rowLen_setCell]
      exact hbd k2 (List.mem_cons_of_mem _ hk2)

lemma writeFold_countPG (pr pc : Nat → Nat) (v : Nat → Option Cell)
    (p : Option Cell → Bool) (hpn : p none = false) :
    ∀ (ks : List Nat) (g : Grid),
      List.Pairwise (fun k1 k2 => ¬ (pr k1 = pr k2 ∧ pc k1 = pc k2)) ks →
      (∀ k ∈ ks, pr k < g.length ∧ pc k < (g.getD (pr k) []).length ∧
        getCell g (pr k) (pc k) = none) →
      countPG p (ks.foldl (fun h k => setCell h (pr k) (pc k) (v k)) g) =
        countPG p g + ks.countP (fun k => p (v k)) := by
  intro ks
  induction ks with
  | nil => intro g _ _; simp
  | cons k ks ih =>
    intro g hpw hbd
    rw [List.pairwise_cons] at hpw
    obtain ⟨hb1, hb2, hb3⟩ := hbd k (List.mem_cons_self _ _)
    rw [List.foldl_cons, ih _ hpw.2 ?_, countPG_setCell p g (pr k) (pc k) (v k) hb1 hb2
      (by rw [hb3]; exact hpn), List.countP_cons]
    · omega
    · intro k2 hk2
      obtain ⟨c1, c2, c3⟩ := hbd k2 (List.mem_cons_of_mem _ hk2)
      have hne : ¬ (pr k2 = pr k ∧ pc k2 = pc k) := fun hc =>
        hpw.1 k2 hk2 ⟨hc.1.symm, hc.2.symm⟩
      rw [length_setCell, rowLen_setCell]
      exact ⟨c1, c2, by rw [getCell_setCell_ne _ _ _ _ _ _ hne]; exact c3⟩

lemma piece_pos_inj (d : Dir) (r c : Nat) (len : Nat)
    (hall : ∀ k : Nat, k < len →
      0 ≤ (r : Int) - (dirVec d).1 * k ∧ 0 ≤ (c : Int) - (dirVec d).2 * k) :
    ∀ k1 k2 : Nat, k1 < len → k2 < len → k1 ≠ k2 →
      ¬ ((((r : Int) - (dirVec d).1 * k1).toNat = ((r : Int) - (dirVec d).1 * k2).toNat) ∧
        (((c : Int) - (dirVec d).2 * k1).toNat = ((c : Int) - (dirVec d).2 * k2).toNat)) := by
  intro k1 k2 h1 h2 hne heq
  obtain ⟨e1, e2⟩ := heq
  obtain ⟨a1, a2⟩ := hall k1 h1
  obtain ⟨b1, b2⟩ := hall k2 h2
  cases d <;> simp only [dirVec] at a1 a2 b1 b2 e1 e2 <;> omega

lemma countP_range_head :
    ∀ len : Nat, 1 ≤ len → (List.range len).countP (fun k => k == 0) = 1 := by
  intro len h
  obtain ⟨m, rfl⟩ : ∃ m, len = m + 1 := ⟨len - 1, by omega⟩
  rw [List.range_succ_eq_map, List.countP_cons]
  have hz : (List.countP (fun k => k == 0) ((List.range m).map Nat.succ)) = 0 := by
    rw [List.countP_eq_zero]
    intro a ha
    rw [List.mem_map] at ha
    obtain ⟨b, -, rfl⟩ := ha
    simp
  rw [hz]
  simp

lemma countP_all_true :
    ∀ (l : List Nat) (p : Nat → Bool), (∀ k ∈ l, p k = true) → l.countP p = l.length := by
  intro l
  induction l with
  | nil => intro p _; rfl
  | cons x xs ih =>
    intro p h
    rw [List.countP_cons, ih p (fun k hk => h k (List.mem_cons_of_mem _ hk)),
      h x (List.mem_cons_self _ _)]
    simp

lemma runOk_mono (g g' : Grid) (r2 c2 : Nat) (q : Cell)
    (hpres : ∀ rr cc : Nat, getCell g rr cc ≠ none → getCell g' rr cc = getCell g rr cc)
    (h : runOk g r2 c2 q = true) : runOk g' r2 c2 q = true := by
  unfold runOk at h ⊢
  rw [List.all_eq_true] at h ⊢
  intro k hk
  have hh := h k hk
  simp only [Bool.and_eq_true, decide_eq_true_eq] at hh ⊢
  obtain ⟨⟨h1, h2⟩, h3⟩ := hh
  refine ⟨⟨h1, h2⟩, ?_⟩
  rw [hpres _ _ (by rw [h3]; simp)]
  exact h3

lemma place_piece_inv (rows cols : Nat) (g : Grid) (ctr r c : Nat) (d : Dir) (len : Nat)
    (pr pc : Nat → Nat) (v : Nat → Option Cell)
    (hpr : ∀ k : Nat, pr k = ((r : Int) - (dirVec d).1 * k).toNat)
    (hpc : ∀ k : Nat, pc k = ((c : Int) - (dirVec d).2 * k).toNat)
    (hv : ∀ k : Nat, v k = some ⟨ctr, d, len, k == 0⟩)
    (hlen : 1 ≤ len)
    (hG : GDims g rows cols) (hI : IdsBelow g ctr) (hC : checkInv g = true)
    (hall : ∀ k : Nat, k < len →
      0 ≤ (r : Int) - (dirVec d).1 * k ∧ (r : Int) - (dirVec d).1 * k < (rows : Int) ∧
        0 ≤ (c : Int) - (dirVec d).2 * k ∧ (c : Int) - (dirVec d).2 * k < (cols : Int) ∧
        getCell g (pr k) (pc k) = none) :
    GDims ((List.range len).foldl (fun h k => setCell h (pr k) (pc k) (v k)) g) rows cols ∧
      IdsBelow ((List.range len).foldl (fun h k => setCell h (pr k) (pc k) (v k)) g)
        (ctr + 1) ∧
      checkInv ((List.range len).foldl (fun h k => setCell h (pr k) (pc k) (v k)) g) =
        true := by
  have hpw : List.Pairwise (fun k1 k2 => ¬ (pr k1 = pr k2 ∧ pc k1 = pc k2))
      (List.range len) := by
    refine (List.nodup_range len).imp_of_mem ?_
    intro a b ha hb hne
    rw [List.mem_range] at ha hb
    have := piece_pos_inj d r c len
      (fun k hk => ⟨(hall k hk).1, (hall k hk).2.2.1⟩) a b ha hb hne
    rw [hpr a, hpr b, hpc a, hpc b]
    exact this
  have hbd : ∀ k ∈ List.range len,
      pr k < g.length ∧ pc k < (g.getD (pr k) []).length ∧
        getCell g (pr k) (pc k) = none := by
    intro k hk
    rw [List.mem_range] at hk
    obtain ⟨a1, a2, a3, a4, a5⟩ := hall k hk
    have hr1 : pr k < rows := by rw [hpr k]; omega
    refine ⟨by rw [hG.1]; exact hr1, ?_, a5⟩
    rw [hG.2 (pr k) hr1, hpc k]
    omega
  have hbd2 : ∀ k ∈ List.range len, pr k < g.length ∧ pc k < (g.getD (pr k) []).length :=
    fun k hk => ⟨(hbd k hk).1, (hbd k hk).2.1⟩
  have F_len := writeFold_length pr pc v (List.range len) g
  have F_row := writeFold_rowLen pr pc v (List.range len) g
  have F_new := writeFold_get_new pr pc v (List.range len) g hpw hbd2
  have F_old := writeFold_get_old pr pc v (List.range len) g
  have F_cnt : ∀ p : Option Cell → Bool, p none = false →
      countPG p ((List.range len).foldl (fun h k => setCell h (pr k) (pc k) (v k)) g) =
        countPG p g + (List.range len).countP (fun k => p (v k)) :=
    fun p hp => writeFold_countPG pr pc v p hp (List.range len) g hpw hbd
  have hpres : ∀ rr cc : Nat, getCell g rr cc ≠ none →
      getCell ((List.range len).foldl (fun h k => setCell h (pr k) (pc k) (v k)) g) rr cc =
        getCell g rr cc := by
    intro rr cc hocc
    refine F_old rr cc ?_
    intro k hk hcon
    exact hocc (by rw [← hcon.1, ← hcon.2]; exact (hbd k hk).2.2)
  have hpos0 : pr 0 = r ∧ pc 0 = c := by
    rw [hpr 0, hpc 0]
    constructor <;> · simp
  refine ⟨⟨by rw [F_len]; exact hG.1, fun r2 h2 => by rw [F_row]; exact hG.2 r2 h2⟩, ?_, ?_⟩
  · -- ids stay below the advanced counter
    intro r2 c2 q hq
    by_cases hnew : ∃ k, k < len ∧ pr k = r2 ∧ pc k = c2
    · obtain ⟨k0, hk0, hp1, hp2⟩ := hnew
      rw [← hp1, ← hp2, F_new k0 (List.mem_range.mpr hk0), hv k0] at hq
      injection hq with hq
      rw [← hq]
      show ctr < ctr + 1
      omega
    · push_neg at hnew
      rw [F_old r2 c2 (fun k hk hcon => by
        rw [List.mem_range] at hk
        exact (hnew k hk hcon.1) hcon.2)] at hq
      have := hI r2 c2 q hq
      omega
  · -- the invariant checker accepts the extended grid
    unfold checkInv
    rw [F_len, F_row, List.all_eq_true]
    intro rc hmem
    cases hcell : getCell ((List.range len).foldl
        (fun h k => setCell h (pr k) (pc k) (v k)) g) rc.1 rc.2 with
    | none => exact headOk_none hcell
    | some q =>
      rw [headOk_some hcell]
      by_cases hnew : ∃ k, k < len ∧ pr k = rc.1 ∧ pc k = rc.2
      · obtain ⟨k0, hk0, hp1, hp2⟩ := hnew
        have hval := F_new k0 (List.mem_range.mpr hk0)
        rw [hp1, hp2, hcell, hv k0] at hval
        injection hval with hval
        subst hval
        have hch : countHead ((List.range len).foldl
            (fun h k => setCell h (pr k) (pc k) (v k)) g) ctr = 1 := by
          unfold countHead
          rw [F_cnt _ rfl]
          have h0 : countPG (fun cell =>
              match cell with
              | some q2 => decide (q2.id = ctr) && q2.head
              | none => false) g = 0 := by
            refine countPG_zero _ _ ?_
            intro r2 c2 cell hrc
            cases cell with
            | none => rfl
            | some q2 =>
              have := hI r2 c2 q2 hrc
              have hne2 : q2.id ≠ ctr := by omega
              simp [hne2]
          have h1 : (List.range len).countP (fun k =>
              match v k with
              | some q2 => decide (q2.id = ctr) && q2.head
              | none => false) = 1 := by
            rw [List.countP_congr ?_]
            · exact countP_range_head len hlen
            · intro k _
              rw [hv k]
              simp
          rw [h0, h1]
        by_cases hk00 : k0 = 0
        · subst hk00
          have hrc1 : rc.1 = r := by rw [← hp1, hpos0.1]
          have hrc2 : rc.2 = c := by rw [← hp2, hpos0.2]
          have hrun : runOk ((List.range len).foldl
              (fun h k => setCell h (pr k) (pc k) (v k)) g) rc.1 rc.2
              ⟨ctr, d, len, true⟩ = true := by
            unfold runOk
            rw [List.all_eq_true]
            intro k hk
            rw [List.mem_range] at hk
            obtain ⟨a1, a2, a3, a4, -⟩ := hall k hk
            simp only [Bool.and_eq_true, decide_eq_true_eq]
            rw [hrc1, hrc2]
            refine ⟨⟨a1, a3⟩, ?_⟩
            have := F_new k (List.mem_range.mpr hk)
            rw [hv k, hpr k, hpc k] at this
            exact this
          have hcid : countId ((List.range len).foldl
              (fun h k => setCell h (pr k) (pc k) (v k)) g) ctr = len := by
            unfold countId
            rw [F_cnt _ rfl]
            have h0 : countPG (fun cell =>
                match cell with
                | some q2 => decide (q2.id = ctr)
                | none => false) g = 0 := by
              refine countPG_zero _ _ ?_
              intro r2 c2 cell hrc
              cases cell with
              | none => rfl
              | some q2 =>
                have := hI r2 c2 q2 hrc
                have hne2 : q2.id ≠ ctr := by omega
                simp [hne2]
            have h1 : (List.range len).countP (fun k =>
                match v k with
                | some q2 => decide (q2.id = ctr)
                | none => false) = len := by
              rw [countP_all_true _ _ ?_, List.length_range]
              intro k _
              rw [hv k]
              simp
            rw [h0, h1]
            omega
          simp [hch, hrun, hcid]
        · have hhd : ((k0 == 0) : Bool) = false := by
            simp [hk00]
          simp [hch, hhd]
      · push_neg at hnew
        have hno : ∀ k ∈ List.range len, ¬ (pr k = rc.1 ∧ pc k = rc.2) := by
          intro k hk hcon
          rw [List.mem_range] at hk
          exact (hnew k hk hcon.1) hcon.2
        have holdc : getCell g rc.1 rc.2 = some q := by
          rw [← F_old rc.1 rc.2 hno]
          exact hcell
        have hqid : q.id < ctr := hI rc.1 rc.2 q holdc
        have hog : headOk g rc = true := by
          unfold checkInv at hC
          exact (List.all_eq_true.mp hC) rc hmem
        rw [headOk_some holdc] at hog
        have hcnt_eq : ∀ p : Option Cell → Bool, p none = false →
            (∀ k : Nat, k < len → p (v k) = false) →
            countPG p ((List.range len).foldl
              (fun h k => setCell h (pr k) (pc k) (v k)) g) = countPG p g := by
          intro p hn hvk
          rw [F_cnt p hn]
          have h0 : (List.range len).countP (fun k => p (v k)) = 0 := by
            rw [List.countP_eq_zero]
            intro k hk
            rw [List.mem_range] at hk
            rw [hvk k hk]
            simp
          omega
        have hH : countHead ((List.range len).foldl
            (fun h k => setCell h (pr k) (pc k) (v k)) g) q.id = countHead g q.id := by
          unfold countHead
          refine hcnt_eq _ rfl ?_
          intro k _
          rw [hv k]
          have hne2 : ctr ≠ q.id := by omega
          simp [hne2]
        have hId : countId ((List.range len).foldl
            (fun h k => setCell h (pr k) (pc k) (v k)) g) q.id = countId g q.id := by
          unfold countId
          refine hcnt_eq _ rfl ?_
          intro k _
          rw [hv k]
          have hne2 : ctr ≠ q.id := by omega
          simp [hne2]
        rw [hH, hId]
        simp only [Bool.and_eq_true, Bool.or_eq_true] at hog ⊢
        refine ⟨hog.1, ?_⟩
        rcases hog.2 with h2 | h2
        · exact Or.inl h2
        · exact Or.inr ⟨runOk_mono g _ rc.1 rc.2 q hpres h2.1, h2.2⟩

lemma checkInv_emptyGrid (rows cols : Nat) : checkInv (emptyGrid rows cols) = true := by
  unfold checkInv
  rw [List.all_eq_true]
  intro rc _
  exact headOk_none (getCell_emptyGrid rows cols rc.1 rc.2)

lemma checkInvNoLen_emptyGrid (rows cols : Nat) :
    checkInvNoLen (emptyGrid rows cols) = true := by
  unfold checkInvNoLen
  rw [List.all_eq_true]
  intro rc _
  exact headOkNoLen_none (getCell_emptyGrid rows cols rc.1 rc.2)

lemma tryPlace_inv (rows cols : Nat) (ch : GenChoice) (st : Grid × Nat) (rc : Nat × Nat)
    (h : GDims st.1 rows cols ∧ IdsBelow st.1 st.2 ∧ checkInv st.1 = true) :
    GDims (tryPlace rows cols ch st rc).1 rows cols ∧
      IdsBelow (tryPlace rows cols ch st rc).1 (tryPlace rows cols ch st rc).2 ∧
      checkInv (tryPlace rows cols ch st rc).1 = true := by
  simp only [tryPlace]
  split_ifs with h1 h2 h3
  · exact h
  · exact h
  · refine place_piece_inv rows cols st.1 st.2 rc.1 rc.2 (dirOfIdx ch.dirIdx)
      (1 + ch.lenDraw) _ _ _ (fun k => rfl) (fun k => rfl) (fun k => rfl) (by omega)
      h.1 h.2.1 h.2.2 ?_
    intro k hk
    have hall := (List.all_eq_true.mp h3) k (List.mem_range.mpr hk)
    simp only [Bool.and_eq_true, decide_eq_true_eq, Option.isNone_iff_eq_none] at hall
    obtain ⟨⟨⟨⟨a1, a2⟩, a3⟩, a4⟩, a5⟩ := hall
    exact ⟨a1, a2, a3, a4, a5⟩
  · exact h

lemma buildCandidate_inv (rows cols : Nat) (ch : Nat → Nat → GenChoice) (ctr0 : Nat) :
    GDims (buildCandidate rows cols ch ctr0).1 rows cols ∧
      IdsBelow (buildCandidate rows cols ch ctr0).1 (buildCandidate rows cols ch ctr0).2 ∧
      checkInv (buildCandidate rows cols ch ctr0).1 = true := by
  unfold buildCandidate
  have hgen : ∀ (l : List (Nat × Nat)) (st : Grid × Nat),
      GDims st.1 rows cols ∧ IdsBelow st.1 st.2 ∧ checkInv st.1 = true →
      GDims ((l.foldl (fun st rc => tryPlace rows cols (ch rc.1 rc.2) st rc) st)).1
          rows cols ∧
        IdsBelow ((l.foldl (fun st rc => tryPlace rows cols (ch rc.1 rc.2) st rc) st)).1
          ((l.foldl (fun st rc => tryPlace rows cols (ch rc.1 rc.2) st rc) st)).2 ∧
        checkInv ((l.foldl (fun st rc => tryPlace rows cols (ch rc.1 rc.2) st rc) st)).1 =
          true := by
    intro l
    induction l with
    | nil => intro st hst; exact hst
    | cons rc l ih =>
      intro st hst
      rw [List.foldl_cons]
      exact ih _ (tryPlace_inv rows cols (ch rc.1 rc.2) st rc hst)
  refine hgen (rowMajor rows cols) (emptyGrid rows cols, ctr0) ⟨?_, ?_, ?_⟩
  · exact ⟨emptyGrid_length rows cols, fun r h => emptyGrid_rowLen rows cols r h⟩
  · intro r c q hq
    rw [getCell_emptyGrid] at hq
    exact Option.noConfusion hq
  · exact checkInv_emptyGrid rows cols

lemma checkInvNoLen_fallback (rows cols : Nat) :
    checkInvNoLen (fallbackGrid rows cols) = true := by
  by_cases hcase : 1 ≤ rows ∧ 2 ≤ cols
  · obtain ⟨h1, h2⟩ := hcase
    obtain ⟨hc1, hc2, hc3⟩ := fallbackGrid_cells rows cols h1 h2
    have hfb : fallbackGrid rows cols =
        setCell (setCell (emptyGrid rows cols) 0 0 (some ⟨1, Dir.R, 1, true⟩)) 0 1
          (some ⟨1, Dir.R, 1, false⟩) := by
      simp only [fallbackGrid]
      rw [if_pos ⟨h1, h2⟩, if_pos (by omega : 1 < cols)]
    have hfl : (fallbackGrid rows cols).length = rows := by
      rw [hfb, length_setCell, length_setCell, emptyGrid_length]
    have hfw : ((fallbackGrid rows cols).getD 0 []).length = cols := by
      rw [hfb, rowLen_setCell, rowLen_setCell, emptyGrid_rowLen rows cols 0 (by omega)]
    have hbE1 : (0 : Nat) < (emptyGrid rows cols).length := by
      rw [emptyGrid_length]; omega
    have hbE2 : ∀ c2 : Nat, c2 < 2 → c2 < ((emptyGrid rows cols).getD 0 []).length := by
      intro c2 hc
      rw [emptyGrid_rowLen rows cols 0 (by omega)]
      omega
    have hb11 : (0 : Nat) < (setCell (emptyGrid rows cols) 0 0
        (some ⟨1, Dir.R, 1, true⟩)).length := by
      rw [length_setCell]; exact hbE1
    have hb12 : (1 : Nat) < ((setCell (emptyGrid rows cols) 0 0
        (some ⟨1, Dir.R, 1, true⟩)).getD 0 []).length := by
      rw [rowLen_setCell]; exact hbE2 1 (by omega)
    have hcnt : countHead (fallbackGrid rows cols) 1 = 1 := by
      unfold countHead
      rw [hfb]
      rw [countPG_setCell _ _ _ _ _ hb11 hb12 ?_]
      · rw [countPG_setCell _ _ _ _ _ hbE1 (hbE2 0 (by omega)) ?_]
        · rw [countPG_zero _ _ ?_]
          · simp
          · intro r2 c2 cell hc
            rw [getCell_emptyGrid] at hc
            rw [← hc]
        · rw [getCell_emptyGrid]
      · rw [getCell_setCell_ne _ _ _ _ _ _ (by omega), getCell_emptyGrid]
    have hrun : runOk (fallbackGrid rows cols) 0 0 ⟨1, Dir.R, 1, true⟩ = true := by
      unfold runOk
      rw [List.all_eq_true]
      intro k hk
      rw [List.mem_range] at hk
      have hk1 : k < 1 := hk
      have hk0 : k = 0 := by omega
      subst hk0
      simp only [Bool.and_eq_true, decide_eq_true_eq]
      refine ⟨⟨by simp, by simp⟩, ?_⟩
      have he1 : ((0 : Nat) : Int) - (dirVec (⟨1, Dir.R, 1, true⟩ : Cell).dir).1 *
          ((0 : Nat) : Int) = 0 := by simp
      have he2 : ((0 : Nat) : Int) - (dirVec (⟨1, Dir.R, 1, true⟩ : Cell).dir).2 *
          ((0 : Nat) : Int) = 0 := by simp
      rw [he1, he2]
      simpa using hc1
    unfold checkInvNoLen
    rw [hfl, hfw, List.all_eq_true]
    intro rc hmem
    obtain ⟨a, b⟩ := rc
    by_cases hh : a = 0 ∧ b < 2
    · obtain ⟨rfl, hcl⟩ := hh
      interval_cases b
      · rw [headOkNoLen_some (show getCell (fallbackGrid rows cols) 0 0 =
          some ⟨1, Dir.R, 1, true⟩ from hc1)]
        simp [hcnt, hrun]
      · rw [headOkNoLen_some (show getCell (fallbackGrid rows cols) 0 1 =
          some ⟨1, Dir.R, 1, false⟩ from hc2)]
        simp [hcnt]
    · exact headOkNoLen_none (hc3 a b hh)
  · have hfb : fallbackGrid rows cols = emptyGrid rows cols := by
      simp only [fallbackGrid]
      rw [if_neg hcase]
    rw [hfb]
    exact checkInvNoLen_emptyGrid rows cols

end InvLemmas

/-- C3 counterexample: the fallback grid breaks the exactly-`length`-cells
clause (piece 1 occupies two cells with recorded length 1), so a returned
grid can fail the full invariant. -/
theorem generate_invariant_cex :
    generateRandomLevelAsync 2 2 1 chNone = fallbackGrid 2 2 ∧
      checkInv (fallbackGrid 2 2) = false :=
  ⟨by decide, by decide⟩

/-- C3 (amended).  Every grid returned by `generate` satisfies the piece
invariant — straight contiguous in-bounds runs, exactly `length` cells, one
head per id, no overlap — except that the fallback grid's single piece
occupies two cells while its recorded length is 1: accepted candidates
satisfy the full invariant, and the fallback satisfies it with the
cell-count clause dropped. -/
theorem generate_invariant (rows cols n : Nat) (ch : Nat → Nat → Nat → GenChoice) :
    checkInv (generateRandomLevelAsync rows cols n ch) = true ∨
      (generateRandomLevelAsync rows cols n ch = fallbackGrid rows cols ∧
        checkInvNoLen (fallbackGrid rows cols) = true) := by
  suffices hloop : ∀ (rem a ctr : Nat),
      checkInv (genLoop rows cols ch rem a ctr) = true ∨
        genLoop rows cols ch rem a ctr = fallbackGrid rows cols by
    rcases hloop n 0 1 with h | h
    · exact Or.inl h
    · exact Or.inr ⟨h, checkInvNoLen_fallback rows cols⟩
  intro rem
  induction rem with
  | zero => intro a ctr; exact Or.inr rfl
  | succ rem ih =>
    intro a ctr
    simp only [genLoop]
    cases hacc : accepted (buildCandidate rows cols (ch a) ctr).1 with
    | true =>
      rw [if_pos rfl]
      exact Or.inl (buildCandidate_inv rows cols (ch a) ctr).2.2
    | false =>
      rw [if_neg (by simp)]
      exact ih (a + 1) _

end ArrowGame
